import Mathlib

/-!
Verification development for the Picarto stream notifier (src/main.py).

The Python program is shallowly embedded: dictionaries become association
lists observed only through lookups, `datetime` instants and `timedelta`
intervals become integers counting seconds, the ping sets become finite
sets, and the network is abstracted into a delivery oracle passed to
`notify`.  Every definition mirrors the corresponding function of
src/main.py; line references are given in the doc comments.
-/

namespace PicartoNotif


/-- ASCII lower-casing of one character, written as an explicit table so
    that the kernel can evaluate it on literals. -/
def casefoldChar : Char → Char
  | 'A' => 'a' | 'B' => 'b' | 'C' => 'c' | 'D' => 'd' | 'E' => 'e'
  | 'F' => 'f' | 'G' => 'g' | 'H' => 'h' | 'I' => 'i' | 'J' => 'j'
  | 'K' => 'k' | 'L' => 'l' | 'M' => 'm' | 'N' => 'n' | 'O' => 'o'
  | 'P' => 'p' | 'Q' => 'q' | 'R' => 'r' | 'S' => 's' | 'T' => 't'
  | 'U' => 'u' | 'V' => 'v' | 'W' => 'w' | 'X' => 'x' | 'Y' => 'y'
  | 'Z' => 'z'
  | c => c

/-- Model of Python `str.casefold()` (ASCII case folding suffices for the
    properties studied here; only its use as an idempotent normalizer for
    map keys is relied upon). -/
def casefold (s : String) : String := String.mk (s.data.map casefoldChar)

/-- A scalar configuration value as it can appear in the id position of a
    `role`/`user` ping entry (JSON string, number or boolean). -/
inductive ConfigVal where
  | vstr (s : String)
  | vint (n : Int)
  | vbool (b : Bool)
deriving DecidableEq

/-- Python `isinstance(v, str)`. -/
def ConfigVal.isStr : ConfigVal → Bool
  | .vstr _ => true
  | _ => false

/-- Python `str(v)` / f-string interpolation of a scalar. -/
def ConfigVal.render : ConfigVal → String
  | .vstr s => s
  | .vint n => toString n
  | .vbool b => if b then "True" else "False"

/-- One entry of a `pings` list: a JSON string, a JSON object (association
    list of keys to scalars), or a value of any other shape. -/
inductive Ping where
  | pstr (s : String)
  | pdict (entries : List (String × ConfigVal))
  | pother
deriving DecidableEq

/-! ### Association lists standing in for Python dicts

Python dicts have unique keys; the state dicts of the program are observed
in this development exclusively through `dictGet`, so the representation
below (insert = put the fresh binding in front of the purged list) is
lookup-equivalent to Python's in-place update. -/

/-- `m.get(k)` / `m[k]` lookup. -/
def dictGet {α : Type} (m : List (String × α)) (k : String) : Option α :=
  match m with
  | [] => none
  | p :: rest => if p.1 = k then some p.2 else dictGet rest k

/-- `del m[k]` / `m.pop(k, None)`: drop the binding for `k`. -/
def dictErase {α : Type} : List (String × α) → String → List (String × α)
  | [], _ => []
  | p :: rest, k => if p.1 = k then dictErase rest k else p :: dictErase rest k

/-- `m[k] = v`: bind `k` to `v` (lookup-equivalent to Python's in-place
    assignment). -/
def dictInsert {α : Type} (m : List (String × α)) (k : String) (v : α) :
    List (String × α) :=
  (k, v) :: dictErase m k

/-- Erasing every key of a list `R` in turn
    (the purge loops at main.py lines 367-373 and 535-538). -/
def purgeAll {α : Type} : List String → List (String × α) → List (String × α)
  | [], m => m
  | r :: rest, m => purgeAll rest (dictErase m r)

/-! ### Intervals (main.py lines 14-30), in seconds -/

/-- `CONFIG_UPDATE_INTERVAL = timedelta(hours=1)` (main.py line 18). -/
def CONFIG_UPDATE_INTERVAL : Int := 3600

/-- `CONFIG_UPDATE_INTERVAL_ERROR = timedelta(minutes=5)` (main.py line 21). -/
def CONFIG_UPDATE_INTERVAL_ERROR : Int := 300

/-- `CHECK_INTERVAL = timedelta(minutes=3)` (main.py line 24). -/
def CHECK_INTERVAL : Int := 180

/-- `CHECK_INTERVAL_ERROR = timedelta(minutes=1)` (main.py line 27). -/
def CHECK_INTERVAL_ERROR : Int := 60

/-- `NOTIFY_INTERVAL = timedelta(minutes=30)` (main.py line 30): the
    notification cooldown window. -/
def NOTIFY_INTERVAL : Int := 1800

/-! ### Creator configuration and validation (main.py lines 65-110) -/

/-- The `creators` entry value of the configuration document: a dict with a
    `pings` list (typed model of `PicartoCreatorConfig`). -/
structure PicartoCreatorConfig where
  pings : List Ping
deriving DecidableEq

/-- Outcome of one iteration of the ping-validation loop of
    `validate_creator_config` (main.py lines 82-108): the iteration either
    passes the entry, flags an error (setting `success = False`), or logs
    an "Unrecognized ping, will be ignored" warning. -/
inductive PingCheck where
  | ok
  | warn
  | err
deriving DecidableEq

/-- The body of the `for ping in pings` loop of `validate_creator_config`
    (main.py lines 82-108), including the `not not isinstance(flake, str)`
    double negation of line 94 exactly as written. -/
def pingCheck (p : Ping) : PingCheck :=
  match p with
  | .pdict entries =>
    match dictGet entries "role" with
    | some flake => if flake.isStr then .ok else .err
    | none =>
      match dictGet entries "user" with
      | some flake => if flake.isStr then .err else .ok
      | none => .warn
  | .pstr s =>
    if s = "@everyone" ∨ s = "everyone" then .ok
    else if s = "@here" ∨ s = "here" then .ok
    else .warn
  | .pother => .warn

/-- `validate_creator_config` (main.py lines 65-110) restricted to the ping
    loop; under the typed configuration model the required-key and
    sequence-type checks of lines 70-77 cannot fail.  Warnings leave
    `success` untouched ("not a failure!"). -/
def validate_creator_config (config : PicartoCreatorConfig) : Bool :=
  config.pings.foldl
    (fun success p => match pingCheck p with | .err => false | _ => success) true

/-! ### The Creator Record (`PicartoCreator`, main.py lines 184-327) -/

/-- A Python `set`, modelled as a duplicate-free list: `setAdd` inserts a
    value not already present (set iteration order is irrelevant to every
    property proved below). -/
def setAdd (s : List ConfigVal) (v : ConfigVal) : List ConfigVal :=
  if v ∈ s then s else s ++ [v]

/-- `PicartoCreator`'s attributes (main.py lines 184-190).  `__name` is the
    configured name, `__actual_name` the name observed from Picarto;
    `ping_roles`/`ping_users` are Python sets of the raw id values. -/
structure PicartoCreator where
  __name : String
  __actual_name : Option String
  ping_everyone : Bool
  ping_here : Bool
  ping_roles : List ConfigVal
  ping_users : List ConfigVal

/-- The `name` property getter (main.py lines 202-204):
    `self.__actual_name or self.__name` — an empty observed name is falsy
    and falls back to the configured name. -/
def PicartoCreator.name (c : PicartoCreator) : String :=
  match c.__actual_name with
  | some s => if s = "" then c.__name else s
  | none => c.__name

/-- The `name` property setter (main.py lines 206-210): the configured name
    and the observed name are replaced only when the new name differs under
    case folding. -/
def PicartoCreator.set_name (c : PicartoCreator) (name : String) : PicartoCreator :=
  if ¬ casefold name = casefold c.__name then
    { c with __name := name, __actual_name := none }
  else c

/-- The body of the `for ping in config['pings']` loop of
    `PicartoCreator.update_config` (main.py lines 221-231). -/
def processPing (c : PicartoCreator) (p : Ping) : PicartoCreator :=
  match p with
  | .pdict entries =>
    match dictGet entries "role" with
    | some v => { c with ping_roles := setAdd c.ping_roles v }
    | none =>
      match dictGet entries "user" with
      | some v => { c with ping_users := setAdd c.ping_users v }
      | none => c
  | .pstr s =>
    if s = "@everyone" ∨ s = "everyone" then { c with ping_everyone := true }
    else if s = "@here" ∨ s = "here" then { c with ping_here := true }
    else c
  | .pother => c

/-- `PicartoCreator.update_config` (main.py lines 212-241): rename, reset
    all mention state, then accumulate the configured pings. -/
def PicartoCreator.update_config (c : PicartoCreator) (name : String)
    (config : PicartoCreatorConfig) : PicartoCreator :=
  let c1 := c.set_name name
  let c2 := { c1 with ping_everyone := false, ping_here := false,
                      ping_roles := [], ping_users := [] }
  config.pings.foldl processPing c2

/-- `PicartoCreator.__init__` (main.py lines 192-200): fresh record, then
    `update_config`. -/
def PicartoCreator.init (name : String) (config : PicartoCreatorConfig) :
    PicartoCreator :=
  (PicartoCreator.mk name none false false [] []).update_config name config

/-- The `allowed_mentions` object (`_create_allowed_mentions_dict`, main.py
    lines 267-289).  `roles`/`users` are optional keys of the result dict;
    `parse` is always set.  Note the blanket user token pushed at line 284
    is the string `"user"`. -/
structure AllowedMentions where
  parse : List String
  roles : Option (List ConfigVal)
  users : Option (List ConfigVal)
deriving DecidableEq

/-- `PicartoCreator._create_allowed_mentions_dict` (main.py lines 267-289). -/
def PicartoCreator._create_allowed_mentions_dict (c : PicartoCreator) :
    AllowedMentions :=
  let parse0 : List String :=
    if c.ping_everyone || c.ping_here then ["everyone"] else []
  let roles : Option (List ConfigVal) :=
    if c.ping_roles.length > 100 then none
    else if c.ping_roles.length > 0 then some c.ping_roles
    else none
  let parse1 : List String :=
    if c.ping_roles.length > 100 then parse0 ++ ["roles"] else parse0
  let users : Option (List ConfigVal) :=
    if c.ping_users.length > 100 then none
    else if c.ping_users.length > 0 then some c.ping_users
    else none
  let parse2 : List String :=
    if c.ping_users.length > 100 then parse1 ++ ["user"] else parse1
  { parse := parse2, roles := roles, users := users }

/-- `PicartoCreator._create_message_content` (main.py lines 254-265). -/
def PicartoCreator._create_message_content (c : PicartoCreator) : String :=
  let pings : List String :=
    (if c.ping_everyone then ["@everyone"] else [])
    ++ (if c.ping_here then ["@here"] else [])
    ++ c.ping_roles.map (fun flake => "<@&" ++ flake.render ++ ">")
    ++ c.ping_users.map (fun flake => "<@" ++ flake.render ++ ">")
  String.intercalate " " pings ++ " **" ++ c.name ++ "** is now live!"

/-- A liveness-API record, reduced to the field the embedded payload
    builders read (`name`; the embed of `_create_embed_dict` is display-only
    data not referenced by any claim and is omitted from the payload
    model). -/
structure LiveData where
  name : Option String
deriving DecidableEq

/-- The webhook POST body built by `create_webhook_post_json`
    (main.py lines 243-252), minus the display-only embed list. -/
structure WebhookPostJson where
  content : String
  allowed_mentions : AllowedMentions
deriving DecidableEq

/-- `PicartoCreator.create_webhook_post_json` (main.py lines 243-252):
    first learn the proper casing of the name from Picarto (mutating
    `__actual_name`), then build the body.  Returns the mutated record with
    the body. -/
def PicartoCreator.create_webhook_post_json (c : PicartoCreator)
    (data : LiveData) : PicartoCreator × WebhookPostJson :=
  let c1 := match data.name with
    | some nm => { c with __actual_name := some nm }
    | none => c
  (c1, { content := c1._create_message_content,
         allowed_mentions := c1._create_allowed_mentions_dict })

/-! ### The Webhook Target (`DiscordWebhook`, main.py lines 330-402) -/

/-- A creator-lifecycle log event emitted by `DiscordWebhook.update_config`
    (the `logger.debug` calls at main.py lines 359, 362 and 370). -/
inductive WEvent where
  | added (key : String)
  | updated (key : String)
  | removed (key : String)
deriving DecidableEq

/-- A webhook entry of the configuration document: `url` plus the
    `creators` mapping (typed model of `DiscordWebhookConfig`). -/
structure DiscordWebhookConfig where
  url : String
  creators : List (String × PicartoCreatorConfig)
deriving DecidableEq

/-- `DiscordWebhook`'s attributes (main.py lines 330-336): both `creators`
    and `last_notified` are keyed by the case-folded creator name. -/
structure DiscordWebhook where
  name : String
  url : String
  creators : List (String × PicartoCreator)
  last_notified : List (String × Int)

/-- State threaded through the `for c_name, c_config in config['creators']`
    loop of `DiscordWebhook.update_config` (main.py lines 355-365). -/
structure UCState where
  creators : List (String × PicartoCreator)
  events : List WEvent
  removed : List String

/-- The creator reconciliation loop of `DiscordWebhook.update_config`
    (main.py lines 355-365): update in place when the case-folded key is
    already tracked, create otherwise, and drop the key from the
    to-be-removed set. -/
def updateCreatorsLoop : List (String × PicartoCreatorConfig) → UCState → UCState
  | [], st => st
  | (c_name, c_config) :: rest, st =>
    let key := casefold c_name
    let st1 :=
      match dictGet st.creators key with
      | some creator =>
        { creators := dictInsert st.creators key
            (creator.update_config c_name c_config),
          events := st.events ++ [WEvent.updated key],
          removed := st.removed.filter (fun x => decide (¬ x = key)) }
      | none =>
        { creators := dictInsert st.creators key
            (PicartoCreator.init c_name c_config),
          events := st.events ++ [WEvent.added key],
          removed := st.removed.filter (fun x => decide (¬ x = key)) }
    updateCreatorsLoop rest st1

/-- `DiscordWebhook.update_config` (main.py lines 346-373): reconcile the
    creator map with the configured creators, then purge every key of the
    to-be-removed set from both `creators` and `last_notified`.  Returns
    the new state with the emitted log events. -/
def DiscordWebhook.update_config (w : DiscordWebhook) (name : String)
    (config : DiscordWebhookConfig) : DiscordWebhook × List WEvent :=
  let removed0 := ((w.creators.map Prod.fst) ++ (w.last_notified.map Prod.fst)).dedup
  let st := updateCreatorsLoop config.creators ⟨w.creators, [], removed0⟩
  let removeEvents :=
    (st.removed.filter (fun k => (dictGet st.creators k).isSome)).map WEvent.removed
  ({ name := name, url := config.url,
     creators := purgeAll st.removed st.creators,
     last_notified := purgeAll st.removed w.last_notified },
   st.events ++ removeEvents)

/-- `DiscordWebhook.__init__` (main.py lines 338-344): empty state, then
    `update_config`. -/
def DiscordWebhook.init (name : String) (config : DiscordWebhookConfig) :
    DiscordWebhook × List WEvent :=
  (DiscordWebhook.mk name "" [] []).update_config name config

/-- Result of a `DiscordWebhook.notify` cycle: the mutated webhook state,
    the boolean return value, and the keys for which a delivery was
    attempted (the `requests.post` calls, in order). -/
structure NotifyResult where
  webhook : DiscordWebhook
  success : Bool
  attempts : List String

/-- The body of the `for c_key, c_data in online_creators.items()` loop of
    `DiscordWebhook.notify` (main.py lines 380-400).  `post` is the
    delivery oracle: `post k = true` models a 2xx response for creator key
    `k`, `false` a raised `RequestException`.  The payload is built (and
    the creator's observed name learned) before the POST is attempted, as
    at line 391; a successful delivery stamps `last_notified[c_key] = now`;
    a failed one only clears `success`. -/
def notifyStep (now : Int) (post : String → Bool) (r : NotifyResult)
    (entry : String × LiveData) : NotifyResult :=
  match dictGet r.webhook.creators entry.1 with
  | none => r
  | some creator =>
    let skip : Bool :=
      match dictGet r.webhook.last_notified entry.1 with
      | some t => decide (t - now < NOTIFY_INTERVAL)
      | none => false
    if skip then r
    else
      let pair := creator.create_webhook_post_json entry.2
      let w1 := { r.webhook with
                  creators := dictInsert r.webhook.creators entry.1 pair.1 }
      if post entry.1 then
        { webhook := { w1 with
                       last_notified := dictInsert w1.last_notified entry.1 now },
          success := r.success, attempts := r.attempts ++ [entry.1] }
      else
        { webhook := w1, success := false, attempts := r.attempts ++ [entry.1] }

/-- `DiscordWebhook.notify` (main.py lines 375-402).  `now` is
    `datetime.now(timezone.utc)` taken once at line 378; the online map is
    passed as its entry list. -/
def DiscordWebhook.notify (w : DiscordWebhook) (online : List (String × LiveData))
    (now : Int) (post : String → Bool) : NotifyResult :=
  online.foldl (notifyStep now post) ⟨w, true, []⟩

/-- The condition under which the loop of `DiscordWebhook.notify` reaches
    the delivery attempt for key `k` (the two `continue` guards at main.py
    lines 381-386, negated): the key is tracked, and there is no
    last-notified record `t` with `t - now < NOTIFY_INTERVAL`. -/
def notifyDue (w : DiscordWebhook) (k : String) (now : Int) : Bool :=
  match dictGet w.creators k with
  | none => false
  | some _ =>
    match dictGet w.last_notified k with
    | some t => ! decide (t - now < NOTIFY_INTERVAL)
    | none => true

/-! ### The Notifier (main.py lines 405-549) -/

/-- A log event emitted by `Notifier.update_config`
    (main.py lines 527, 530, 538), with the creator-level events of each
    nested `DiscordWebhook.update_config` tagged by the webhook key. -/
inductive NEvent where
  | webhookAdded (key : String)
  | webhookUpdated (key : String)
  | webhookRemoved (key : String)
  | creator (wkey : String) (e : WEvent)
deriving DecidableEq

/-- The configuration document (typed model of `NotifierConfig`). -/
structure NotifierConfig where
  user_agent : String
  email : String
  webhooks : List (String × DiscordWebhookConfig)
deriving DecidableEq

/-- `Notifier`'s state (main.py lines 405-414), with times as integer
    seconds.  `config_url` and the raw `config` document are omitted: no
    claim reads them back. -/
structure Notifier where
  last_config_update : Int
  config_update_interval : Int
  user_agent : String
  email : String
  webhooks : List (String × DiscordWebhook)
  tracked_creators : List (String × String)

/-- The config-refresh guard of `Notifier.run` (main.py line 436), exactly
    as written: `self.last_config_update - now >= self.config_update_interval`. -/
def Notifier.config_refresh_check (n : Notifier) (now : Int) : Bool :=
  decide (n.last_config_update - now ≥ n.config_update_interval)

/-- State threaded through the `for w_name, w_config in
    self.config['webhooks']` loop of `Notifier.update_config`
    (main.py lines 523-533). -/
structure UWState where
  webhooks : List (String × DiscordWebhook)
  events : List NEvent
  removed : List String

/-- The webhook reconciliation loop of `Notifier.update_config`
    (main.py lines 523-533). -/
def updateWebhooksLoop : List (String × DiscordWebhookConfig) → UWState → UWState
  | [], st => st
  | (w_name, w_config) :: rest, st =>
    let key := casefold w_name
    let st1 :=
      match dictGet st.webhooks key with
      | some webhook =>
        let pair := webhook.update_config w_name w_config
        { webhooks := dictInsert st.webhooks key pair.1,
          events := st.events ++ [NEvent.webhookUpdated key]
                    ++ pair.2.map (NEvent.creator key),
          removed := st.removed.filter (fun x => decide (¬ x = key)) }
      | none =>
        let pair := DiscordWebhook.init w_name w_config
        { webhooks := dictInsert st.webhooks key pair.1,
          events := st.events ++ [NEvent.webhookAdded key]
                    ++ pair.2.map (NEvent.creator key),
          removed := st.removed.filter (fun x => decide (¬ x = key)) }
    updateWebhooksLoop rest st1

/-- The configuration-application part of `Notifier.update_config`
    (main.py lines 512-549), i.e. what runs once the fetch succeeded and
    `validate_config` passed: store the fetch time, copy `user_agent` and
    `email`, reconcile the webhook map, purge removed webhooks, rebuild
    `tracked_creators` and reset the refresh interval to the nominal value. -/
def Notifier.apply_config (n : Notifier) (config : NotifierConfig) (now : Int) :
    Notifier × List NEvent :=
  let st := updateWebhooksLoop config.webhooks
    ⟨n.webhooks, [], (n.webhooks.map Prod.fst).dedup⟩
  let removeEvents :=
    (st.removed.filter (fun k => (dictGet st.webhooks k).isSome)).map
      NEvent.webhookRemoved
  let webhooks1 := purgeAll st.removed st.webhooks
  let tracked := webhooks1.foldl
    (fun acc p => p.2.creators.foldl
      (fun acc2 q => dictInsert acc2 q.1 q.2.name) acc) []
  ({ last_config_update := now,
     config_update_interval := CONFIG_UPDATE_INTERVAL,
     user_agent := config.user_agent, email := config.email,
     webhooks := webhooks1, tracked_creators := tracked },
   st.events ++ removeEvents)

/-- Which entries the parsing loop of `PicartoCreator.update_config`
    reacts to: one of the four literal broadcast strings, or a dict
    carrying a `role` or `user` key.  Everything else is skipped. -/
def pingRecognized (p : Ping) : Bool :=
  match p with
  | .pstr s => decide (s = "@everyone" ∨ s = "everyone")
      || decide (s = "@here" ∨ s = "here")
  | .pdict entries => (dictGet entries "role").isSome
      || (dictGet entries "user").isSome
  | .pother => false

/-! ### Specification-side notions used by the theorems below -/

/-- The case-folded keys of a configuration mapping's entries. -/
def cfgKeys {α : Type} (items : List (String × α)) : List String :=
  items.map (fun p => casefold p.1)

/-- The state shape `DiscordWebhook.update_config` guarantees relative to a
    key list `K`: every key of `K` is tracked, and everything tracked or
    timestamped lies in `K`. -/
def webhookKeysHyp (w : DiscordWebhook) (K : List String) : Prop :=
  (∀ kk ∈ K, (dictGet w.creators kk).isSome = true)
  ∧ (∀ kk, ((dictGet w.creators kk).isSome = true
        ∨ (dictGet w.last_notified kk).isSome = true) → kk ∈ K)

/-- Observational agreement of two webhook states: identical last-notified
    lookups and identically tracked creator keys. -/
def webhookSim (a b : DiscordWebhook) : Prop :=
  (∀ ck, dictGet a.last_notified ck = dictGet b.last_notified ck)
  ∧ (∀ ck, (dictGet a.creators ck).isSome = (dictGet b.creators ck).isSome)

/-- `webhookSim` lifted to optional webhook states. -/
def optWebhookSim : Option DiscordWebhook → Option DiscordWebhook → Prop
  | none, none => True
  | some a, some b => webhookSim a b
  | _, _ => False

/-- The log events a second application of an unchanged (up to case)
    configuration is allowed to produce: pure update events. -/
def updateKind : NEvent → Bool
  | .webhookUpdated _ => true
  | .creator _ (WEvent.updated _) => true
  | _ => false

/-! ### Configurations equal up to case-folding of names -/

/-- Two creator mappings are equal up to the casing of the creator names:
    pointwise case-fold-equal names with identical ping payloads. -/
def creatorConfigsEquiv : List (String × PicartoCreatorConfig) →
    List (String × PicartoCreatorConfig) → Bool
  | [], [] => true
  | p :: ps, q :: qs =>
    decide (casefold p.1 = casefold q.1) && decide (p.2 = q.2)
      && creatorConfigsEquiv ps qs
  | _, _ => false

/-- Two webhook mappings are equal up to the casing of webhook and creator
    names. -/
def webhookConfigsEquiv : List (String × DiscordWebhookConfig) →
    List (String × DiscordWebhookConfig) → Bool
  | [], [] => true
  | p :: ps, q :: qs =>
    decide (casefold p.1 = casefold q.1) && decide (p.2.url = q.2.url)
      && creatorConfigsEquiv p.2.creators q.2.creators
      && webhookConfigsEquiv ps qs
  | _, _ => false

/-- Two configuration documents are equal up to the casing of webhook and
    creator names (in particular, any document is equivalent to itself). -/
def notifierConfigEquiv (a b : NotifierConfig) : Bool :=
  decide (a.user_agent = b.user_agent) && decide (a.email = b.email)
    && webhookConfigsEquiv a.webhooks b.webhooks

/-! ### Theorems -/

theorem dictGet_erase {α : Type} (m : List (String × α)) (k k' : String) :
    dictGet (dictErase m k) k' = if k' = k then none else dictGet m k' := by
  induction m with
  | nil => simp [dictErase, dictGet]
  | cons p rest ih =>
    by_cases hpk : p.1 = k
    · have h1 : dictErase (p :: rest) k = dictErase rest k := by
        simp [dictErase, hpk]
      rw [h1, ih]
      by_cases hk : k' = k
      · simp [hk]
      · have hbk : ¬ p.1 = k' := fun h => hk (h.symm.trans hpk)
        simp [hk, dictGet, hbk]
    · have h1 : dictErase (p :: rest) k = p :: dictErase rest k := by
        simp [dictErase, hpk]
      rw [h1]
      by_cases hpk' : p.1 = k'
      · have hk : ¬ k' = k := fun h => hpk (hpk'.trans h)
        simp [dictGet, hpk', hk]
      · simp [dictGet, hpk', ih]

theorem dictGet_insert {α : Type} (m : List (String × α)) (k k' : String) (v : α) :
    dictGet (dictInsert m k v) k' = if k' = k then some v else dictGet m k' := by
  rw [dictInsert, dictGet]
  by_cases h : k = k'
  · simp [h]
  · have h' : ¬ k' = k := fun hh => h hh.symm
    simp [h, h', dictGet_erase]

theorem dictGet_insert_self {α : Type} (m : List (String × α)) (k : String) (v : α) :
    dictGet (dictInsert m k v) k = some v := by
  simp [dictGet_insert]

theorem dictGet_insert_ne {α : Type} {m : List (String × α)} {k k' : String} {v : α}
    (h : ¬ k' = k) : dictGet (dictInsert m k v) k' = dictGet m k' := by
  simp [dictGet_insert, h]

theorem dictGet_isSome_of_mem_keys {α : Type} {m : List (String × α)} {k : String}
    (h : k ∈ m.map Prod.fst) : (dictGet m k).isSome = true := by
  induction m with
  | nil => simp at h
  | cons p rest ih =>
    rw [dictGet]
    by_cases hp : p.1 = k
    · simp [hp]
    · simp only [List.map_cons, List.mem_cons] at h
      rcases h with h | h
      · exact absurd h.symm hp
      · simp [hp, ih h]

theorem mem_keys_of_dictGet_isSome {α : Type} {m : List (String × α)} {k : String}
    (h : (dictGet m k).isSome = true) : k ∈ m.map Prod.fst := by
  induction m with
  | nil => simp [dictGet] at h
  | cons p rest ih =>
    rw [dictGet] at h
    by_cases hp : p.1 = k
    · simp [hp.symm]
    · simp only [hp, if_false] at h
      simp [ih h]

theorem dictGet_purgeAll {α : Type} (R : List String) (m : List (String × α))
    (k : String) :
    dictGet (purgeAll R m) k = if k ∈ R then none else dictGet m k := by
  induction R generalizing m with
  | nil => simp [purgeAll]
  | cons r rest ih =>
    rw [purgeAll, ih (dictErase m r), dictGet_erase]
    by_cases hk : k ∈ rest
    · simp [hk, List.mem_cons]
    · by_cases hr : k = r <;> simp [hr, List.mem_cons, hk]

theorem validate_creator_config_eq_all (config : PicartoCreatorConfig) :
    validate_creator_config config
      = config.pings.all (fun p => decide (¬ pingCheck p = PingCheck.err)) := by
  rw [validate_creator_config]
  have main : ∀ (ps : List Ping) (b : Bool),
      ps.foldl (fun success p =>
          match pingCheck p with | .err => false | _ => success) b
        = (b && ps.all (fun p => decide (¬ pingCheck p = PingCheck.err))) := by
    intro ps
    induction ps with
    | nil => simp
    | cons p rest ih =>
      intro b
      rw [List.foldl_cons, List.all_cons, ih]
      cases hc : pingCheck p <;> cases b <;> simp [hc]
  rw [main, Bool.true_and]

/-! ### Lemmas about ping parsing (main.py lines 221-231) -/

theorem mem_setAdd {s : List ConfigVal} {v x : ConfigVal} :
    x ∈ setAdd s v ↔ x ∈ s ∨ x = v := by
  rw [setAdd]
  by_cases h : v ∈ s
  · simp only [h, if_true]
    constructor
    · exact Or.inl
    · rintro (hx | rfl) <;> assumption
  · simp [h, List.mem_append]

theorem processPing_skip {c : PicartoCreator} {p : Ping}
    (h : pingRecognized p = false) : processPing c p = c := by
  cases p with
  | pstr s =>
    rw [pingRecognized] at h
    simp only [Bool.or_eq_false_iff, decide_eq_false_iff_not] at h
    simp [processPing, h.1, h.2]
  | pdict entries =>
    rw [pingRecognized] at h
    cases hr : dictGet entries "role" with
    | some v => simp [hr] at h
    | none =>
      cases hu : dictGet entries "user" with
      | some v => simp [hr, hu] at h
      | none => simp [processPing, hr, hu]
  | pother => rfl

theorem pingCheck_warn_of_unrecognized {p : Ping}
    (h : pingRecognized p = false) : pingCheck p = PingCheck.warn := by
  cases p with
  | pstr s =>
    rw [pingRecognized] at h
    simp only [Bool.or_eq_false_iff, decide_eq_false_iff_not] at h
    simp [pingCheck, h.1, h.2]
  | pdict entries =>
    rw [pingRecognized] at h
    cases hr : dictGet entries "role" with
    | some v => simp [hr] at h
    | none =>
      cases hu : dictGet entries "user" with
      | some v => simp [hr, hu] at h
      | none => simp [pingCheck, hr, hu]
  | pother => rfl

theorem processPing_everyone_mono {c : PicartoCreator} (p : Ping)
    (h : c.ping_everyone = true) : (processPing c p).ping_everyone = true := by
  cases p with
  | pstr s =>
    by_cases h1 : s = "@everyone" ∨ s = "everyone"
    · simp [processPing, h1]
    · by_cases h2 : s = "@here" ∨ s = "here" <;> simp [processPing, h1, h2, h]
  | pdict entries =>
    cases hr : dictGet entries "role" with
    | some v => simp [processPing, hr, h]
    | none => cases hu : dictGet entries "user" <;> simp [processPing, hr, hu, h]
  | pother => exact h

theorem processPing_here_mono {c : PicartoCreator} (p : Ping)
    (h : c.ping_here = true) : (processPing c p).ping_here = true := by
  cases p with
  | pstr s =>
    by_cases h1 : s = "@everyone" ∨ s = "everyone"
    · simp [processPing, h1, h]
    · by_cases h2 : s = "@here" ∨ s = "here" <;> simp [processPing, h1, h2, h]
  | pdict entries =>
    cases hr : dictGet entries "role" with
    | some v => simp [processPing, hr, h]
    | none => cases hu : dictGet entries "user" <;> simp [processPing, hr, hu, h]
  | pother => exact h

theorem processPing_roles_mono {c : PicartoCreator} (p : Ping) {v : ConfigVal}
    (h : v ∈ c.ping_roles) : v ∈ (processPing c p).ping_roles := by
  cases p with
  | pstr s =>
    by_cases h1 : s = "@everyone" ∨ s = "everyone"
    · simpa [processPing, h1] using h
    · by_cases h2 : s = "@here" ∨ s = "here" <;>
        simpa [processPing, h1, h2] using h
  | pdict entries =>
    cases hr : dictGet entries "role" with
    | some u =>
      simp only [processPing, hr]
      exact mem_setAdd.mpr (Or.inl h)
    | none => cases hu : dictGet entries "user" <;> simpa [processPing, hr, hu] using h
  | pother => exact h

theorem processPing_users_mono {c : PicartoCreator} (p : Ping) {v : ConfigVal}
    (h : v ∈ c.ping_users) : v ∈ (processPing c p).ping_users := by
  cases p with
  | pstr s =>
    by_cases h1 : s = "@everyone" ∨ s = "everyone"
    · simpa [processPing, h1] using h
    · by_cases h2 : s = "@here" ∨ s = "here" <;>
        simpa [processPing, h1, h2] using h
  | pdict entries =>
    cases hr : dictGet entries "role" with
    | some u => simpa [processPing, hr] using h
    | none =>
      cases hu : dictGet entries "user" with
      | some u =>
        simp only [processPing, hr, hu]
        exact mem_setAdd.mpr (Or.inl h)
      | none => simpa [processPing, hr, hu] using h
  | pother => exact h

theorem foldl_everyone_of_mem {ps : List Ping} (c : PicartoCreator)
    (h : Ping.pstr "@everyone" ∈ ps ∨ Ping.pstr "everyone" ∈ ps) :
    (ps.foldl processPing c).ping_everyone = true := by
  have mono : ∀ (qs : List Ping) (d : PicartoCreator), d.ping_everyone = true →
      (qs.foldl processPing d).ping_everyone = true := by
    intro qs
    induction qs with
    | nil => intro d hd; exact hd
    | cons q rest ih =>
      intro d hd
      exact ih (processPing d q) (processPing_everyone_mono q hd)
  induction ps generalizing c with
  | nil => rcases h with h | h <;> simp at h
  | cons p rest ih =>
    rw [List.foldl_cons]
    rcases h with h | h
    · rcases List.mem_cons.mp h with rfl | hmem
      · exact mono rest _ (by simp [processPing])
      · exact ih _ (Or.inl hmem)
    · rcases List.mem_cons.mp h with rfl | hmem
      · exact mono rest _ (by simp [processPing])
      · exact ih _ (Or.inr hmem)

theorem foldl_here_of_mem {ps : List Ping} (c : PicartoCreator)
    (h : Ping.pstr "@here" ∈ ps ∨ Ping.pstr "here" ∈ ps) :
    (ps.foldl processPing c).ping_here = true := by
  have mono : ∀ (qs : List Ping) (d : PicartoCreator), d.ping_here = true →
      (qs.foldl processPing d).ping_here = true := by
    intro qs
    induction qs with
    | nil => intro d hd; exact hd
    | cons q rest ih =>
      intro d hd
      exact ih (processPing d q) (processPing_here_mono q hd)
  induction ps generalizing c with
  | nil => rcases h with h | h <;> simp at h
  | cons p rest ih =>
    rw [List.foldl_cons]
    rcases h with h | h
    · rcases List.mem_cons.mp h with rfl | hmem
      · exact mono rest _ (by simp [processPing])
      · exact ih _ (Or.inl hmem)
    · rcases List.mem_cons.mp h with rfl | hmem
      · exact mono rest _ (by simp [processPing])
      · exact ih _ (Or.inr hmem)

theorem foldl_role_of_mem {ps : List Ping} (c : PicartoCreator)
    {entries : List (String × ConfigVal)} {v : ConfigVal}
    (hmem : Ping.pdict entries ∈ ps) (hrole : dictGet entries "role" = some v) :
    v ∈ (ps.foldl processPing c).ping_roles := by
  have mono : ∀ (qs : List Ping) (d : PicartoCreator), v ∈ d.ping_roles →
      v ∈ (qs.foldl processPing d).ping_roles := by
    intro qs
    induction qs with
    | nil => intro d hd; exact hd
    | cons q rest ih =>
      intro d hd
      exact ih (processPing d q) (processPing_roles_mono q hd)
  induction ps generalizing c with
  | nil => simp at hmem
  | cons p rest ih =>
    rw [List.foldl_cons]
    rcases List.mem_cons.mp hmem with rfl | hmem2
    · refine mono rest _ ?_
      simp only [processPing, hrole]
      exact mem_setAdd.mpr (Or.inr rfl)
    · exact ih _ hmem2

theorem foldl_user_of_mem {ps : List Ping} (c : PicartoCreator)
    {entries : List (String × ConfigVal)} {v : ConfigVal}
    (hmem : Ping.pdict entries ∈ ps) (hrole : dictGet entries "role" = none)
    (huser : dictGet entries "user" = some v) :
    v ∈ (ps.foldl processPing c).ping_users := by
  have mono : ∀ (qs : List Ping) (d : PicartoCreator), v ∈ d.ping_users →
      v ∈ (qs.foldl processPing d).ping_users := by
    intro qs
    induction qs with
    | nil => intro d hd; exact hd
    | cons q rest ih =>
      intro d hd
      exact ih (processPing d q) (processPing_users_mono q hd)
  induction ps generalizing c with
  | nil => simp at hmem
  | cons p rest ih =>
    rw [List.foldl_cons]
    rcases List.mem_cons.mp hmem with rfl | hmem2
    · refine mono rest _ ?_
      simp only [processPing, hrole, huser]
      exact mem_setAdd.mpr (Or.inr rfl)
    · exact ih _ hmem2

/-! ### Lemmas about the notify cycle (main.py lines 375-402) -/

theorem notifyDue_congr {w1 w0 : DiscordWebhook} {k : String} (now : Int)
    (hc : (dictGet w1.creators k).isSome = (dictGet w0.creators k).isSome)
    (hl : dictGet w1.last_notified k = dictGet w0.last_notified k) :
    notifyDue w1 k now = notifyDue w0 k now := by
  rw [notifyDue, notifyDue, hl]
  cases h1 : dictGet w1.creators k <;> cases h0 : dictGet w0.creators k <;>
    simp [h1, h0] at hc ⊢

theorem notifyStep_not_due {now : Int} {post : String → Bool} {r : NotifyResult}
    {entry : String × LiveData}
    (h : notifyDue r.webhook entry.1 now = false) :
    notifyStep now post r entry = r := by
  rw [notifyStep]
  rw [notifyDue] at h
  cases hc : dictGet r.webhook.creators entry.1 with
  | none => rfl
  | some creator =>
    rw [hc] at h
    cases hl : dictGet r.webhook.last_notified entry.1 with
    | some t =>
      rw [hl] at h
      simp only [Bool.not_eq_false'] at h
      simp [hl, h]
    | none => rw [hl] at h; simp at h

theorem notifyStep_due {now : Int} {post : String → Bool} {r : NotifyResult}
    {entry : String × LiveData}
    (h : notifyDue r.webhook entry.1 now = true) :
    (notifyStep now post r entry).attempts = r.attempts ++ [entry.1]
    ∧ (notifyStep now post r entry).success = (r.success && post entry.1)
    ∧ (∀ k, dictGet (notifyStep now post r entry).webhook.last_notified k
        = if k = entry.1 ∧ post entry.1 = true then some now
          else dictGet r.webhook.last_notified k)
    ∧ (∀ k, (dictGet (notifyStep now post r entry).webhook.creators k).isSome
        = (dictGet r.webhook.creators k).isSome)
    ∧ (notifyStep now post r entry).webhook.url = r.webhook.url
    ∧ (notifyStep now post r entry).webhook.name = r.webhook.name := by
  rw [notifyDue] at h
  cases hc : dictGet r.webhook.creators entry.1 with
  | none => rw [hc] at h; simp at h
  | some creator =>
    rw [hc] at h
    have hskip : (match dictGet r.webhook.last_notified entry.1 with
        | some t => decide (t - now < NOTIFY_INTERVAL)
        | none => false) = false := by
      cases hl : dictGet r.webhook.last_notified entry.1 with
      | some t => rw [hl] at h; simpa using h
      | none => rfl
    rw [notifyStep, hc]
    simp only [hskip, Bool.false_eq_true, if_false]
    cases hp : post entry.1 with
    | true =>
      refine ⟨rfl, by simp, ?_, ?_, rfl, rfl⟩
      · intro k
        by_cases hk : k = entry.1 <;>
          simp [dictGet_insert, hk]
      · intro k
        by_cases hk : k = entry.1
        · simp [dictGet_insert, hk, hc]
        · simp [dictGet_insert, hk]
    | false =>
      refine ⟨rfl, by simp, ?_, ?_, rfl, rfl⟩
      · intro k
        simp
      · intro k
        by_cases hk : k = entry.1
        · simp [dictGet_insert, hk, hc]
        · simp [dictGet_insert, hk]

theorem notify_foldl_spec (online : List (String × LiveData)) (now : Int)
    (post : String → Bool) (r0 : NotifyResult)
    (hnd : (online.map Prod.fst).Nodup) :
    (online.foldl (notifyStep now post) r0).attempts
      = r0.attempts
        ++ (online.filter (fun p => notifyDue r0.webhook p.1 now)).map Prod.fst
    ∧ (online.foldl (notifyStep now post) r0).success
      = (r0.success
         && ((online.filter (fun p => notifyDue r0.webhook p.1 now)).map
              Prod.fst).all post)
    ∧ (∀ k, dictGet (online.foldl (notifyStep now post) r0).webhook.last_notified k
        = if k ∈ (online.filter
              (fun p => notifyDue r0.webhook p.1 now)).map Prod.fst
            ∧ post k = true
          then some now
          else dictGet r0.webhook.last_notified k)
    ∧ (∀ k, (dictGet (online.foldl (notifyStep now post) r0).webhook.creators
              k).isSome
        = (dictGet r0.webhook.creators k).isSome)
    ∧ (online.foldl (notifyStep now post) r0).webhook.url = r0.webhook.url
    ∧ (online.foldl (notifyStep now post) r0).webhook.name = r0.webhook.name := by
  induction online generalizing r0 with
  | nil => simp
  | cons x rest ih =>
    rw [List.map_cons, List.nodup_cons] at hnd
    obtain ⟨hx, hnd'⟩ := hnd
    rw [List.foldl_cons]
    cases hdue : notifyDue r0.webhook x.1 now with
    | false =>
      rw [notifyStep_not_due hdue]
      have hfilter : (x :: rest).filter (fun p => notifyDue r0.webhook p.1 now)
          = rest.filter (fun p => notifyDue r0.webhook p.1 now) := by
        rw [List.filter_cons]
        simp [hdue]
      rw [hfilter]
      exact ih r0 hnd'
    | true =>
      obtain ⟨ha, hs, hl, hcr, hu, hn⟩ := @notifyStep_due now post r0 x hdue
      set r1 := notifyStep now post r0 x with hr1
      have hcongr : ∀ p ∈ rest, notifyDue r1.webhook p.1 now
          = notifyDue r0.webhook p.1 now := by
        intro p hp
        have hpk : ¬ p.1 = x.1 := by
          intro hh
          exact hx (hh ▸ (List.mem_map.mpr ⟨p, hp, rfl⟩))
        refine notifyDue_congr now (hcr p.1) ?_
        rw [hl p.1]
        simp [hpk]
      have hfilter : rest.filter (fun p => notifyDue r1.webhook p.1 now)
          = rest.filter (fun p => notifyDue r0.webhook p.1 now) :=
        List.filter_congr (fun p hp => hcongr p hp)
      have hfx : (x :: rest).filter (fun p => notifyDue r0.webhook p.1 now)
          = x :: rest.filter (fun p => notifyDue r0.webhook p.1 now) := by
        rw [List.filter_cons]
        simp [hdue]
      obtain ⟨iha, ihs, ihl, ihcr, ihu, ihn⟩ := ih r1 hnd'
      rw [hfilter] at iha ihs ihl
      refine ⟨?_, ?_, ?_, ?_, ?_, ?_⟩
      · rw [iha, ha, hfx]
        simp
      · rw [ihs, hs, hfx]
        simp [Bool.and_assoc]
      · intro k
        rw [ihl k, hfx]
        by_cases hk : k = x.1
        · have hknot : k ∉ (rest.filter
              (fun p => notifyDue r0.webhook p.1 now)).map Prod.fst := by
            intro hmem
            rcases List.mem_map.mp hmem with ⟨p, hp, hpe⟩
            exact hx (List.mem_map.mpr ⟨p, List.mem_of_mem_filter hp, hpe.trans hk⟩)
          have hmx : k ∈ (x :: rest.filter
              (fun p => notifyDue r0.webhook p.1 now)).map Prod.fst := by
            simp [hk]
          simp only [hknot, false_and, if_false]
          rw [hl k]
          by_cases hp : post k = true <;> simp [hk, hp, hmx, hk ▸ hp]
        · have hmem2 : (k ∈ (x :: rest.filter
              (fun p => notifyDue r0.webhook p.1 now)).map Prod.fst)
              ↔ (k ∈ (rest.filter
                  (fun p => notifyDue r0.webhook p.1 now)).map Prod.fst) := by
            simp [hk]
          have hstep : dictGet r1.webhook.last_notified k
              = dictGet r0.webhook.last_notified k := by
            rw [hl k]
            simp [hk]
          rw [hstep]
          exact if_congr (and_congr_left' hmem2.symm) rfl rfl
      · intro k
        rw [ihcr k, hcr k]
      · rw [ihu, hu]
      · rw [ihn, hn]

theorem notifyStep_absent {now : Int} {post : String → Bool} {r : NotifyResult}
    {entry : String × LiveData} {k : String}
    (hc : dictGet r.webhook.creators k = none) :
    dictGet (notifyStep now post r entry).webhook.creators k = none
    ∧ dictGet (notifyStep now post r entry).webhook.last_notified k
        = dictGet r.webhook.last_notified k
    ∧ (k ∈ (notifyStep now post r entry).attempts ↔ k ∈ r.attempts) := by
  by_cases he : entry.1 = k
  · rw [notifyStep]
    rw [he, hc]
    exact ⟨hc, rfl, Iff.rfl⟩
  · have hke : ¬ k = entry.1 := fun hh => he hh.symm
    rw [notifyStep]
    cases hcx : dictGet r.webhook.creators entry.1 with
    | none => exact ⟨hc, rfl, Iff.rfl⟩
    | some creator =>
      by_cases hskip : (match dictGet r.webhook.last_notified entry.1 with
          | some t => decide (t - now < NOTIFY_INTERVAL)
          | none => false) = true
      · simp only [hskip, if_true]
        simp [hc]
      · simp only [eq_false_of_ne_true hskip, Bool.false_eq_true, if_false]
        cases hp : post entry.1 <;>
          simp [dictGet_insert, hke, hc, List.mem_append]

theorem notifyLoop_absent (online : List (String × LiveData)) (now : Int)
    (post : String → Bool) (r0 : NotifyResult) (k : String)
    (hc : dictGet r0.webhook.creators k = none) :
    dictGet (online.foldl (notifyStep now post) r0).webhook.creators k = none
    ∧ dictGet (online.foldl (notifyStep now post) r0).webhook.last_notified k
        = dictGet r0.webhook.last_notified k
    ∧ (k ∈ (online.foldl (notifyStep now post) r0).attempts ↔ k ∈ r0.attempts) := by
  induction online generalizing r0 with
  | nil => exact ⟨hc, rfl, Iff.rfl⟩
  | cons x rest ih =>
    rw [List.foldl_cons]
    obtain ⟨h1, h2, h3⟩ := @notifyStep_absent now post r0 x k hc
    obtain ⟨g1, g2, g3⟩ := ih (notifyStep now post r0 x) h1
    exact ⟨g1, g2.trans h2, g3.trans h3⟩

/-! ### Lemmas about creator reconciliation
    (`DiscordWebhook.update_config`, main.py lines 346-373) -/

theorem updateCreatorsLoop_isSome_mono
    (items : List (String × PicartoCreatorConfig)) (st : UCState) (k : String)
    (h : (dictGet st.creators k).isSome = true) :
    (dictGet (updateCreatorsLoop items st).creators k).isSome = true := by
  induction items generalizing st with
  | nil => exact h
  | cons x rest ih =>
    rw [updateCreatorsLoop]
    cases hx : dictGet st.creators (casefold x.1) <;>
    · apply ih
      by_cases hk : k = casefold x.1 <;>
        simp [dictGet_insert, hk, h]

theorem updateCreatorsLoop_get_not_mem
    (items : List (String × PicartoCreatorConfig)) (st : UCState) (k : String)
    (h : k ∉ cfgKeys items) :
    dictGet (updateCreatorsLoop items st).creators k = dictGet st.creators k := by
  induction items generalizing st with
  | nil => rfl
  | cons x rest ih =>
    have hk1 : ¬ k = casefold x.1 := by
      intro hh
      exact h (by simp [cfgKeys, hh])
    have hk2 : k ∉ cfgKeys rest := by
      intro hh
      refine h ?_
      simp only [cfgKeys, List.map_cons, List.mem_cons]
      exact Or.inr (by simpa [cfgKeys] using hh)
    rw [updateCreatorsLoop]
    cases hx : dictGet st.creators (casefold x.1) <;>
    · rw [ih _ hk2]
      simp [dictGet_insert, hk1]

theorem updateCreatorsLoop_get_mem
    (items : List (String × PicartoCreatorConfig)) (st : UCState) (k : String)
    (h : k ∈ cfgKeys items) :
    (dictGet (updateCreatorsLoop items st).creators k).isSome = true := by
  induction items generalizing st with
  | nil => simp [cfgKeys] at h
  | cons x rest ih =>
    rw [cfgKeys, List.map_cons, List.mem_cons] at h
    rw [updateCreatorsLoop]
    by_cases hk : k = casefold x.1
    · cases hx : dictGet st.creators (casefold x.1) <;>
      · apply updateCreatorsLoop_isSome_mono
        simp [dictGet_insert, hk]
    · have hmem : k ∈ cfgKeys rest := by
        rcases h with h | h
        · exact absurd h hk
        · exact h
      cases hx : dictGet st.creators (casefold x.1) <;> exact ih _ hmem

theorem updateCreatorsLoop_removed_mem
    (items : List (String × PicartoCreatorConfig)) (st : UCState) (k : String) :
    k ∈ (updateCreatorsLoop items st).removed
      ↔ (k ∈ st.removed ∧ k ∉ cfgKeys items) := by
  induction items generalizing st with
  | nil => simp [updateCreatorsLoop, cfgKeys]
  | cons x rest ih =>
    rw [updateCreatorsLoop]
    have key_step : ∀ (st1 : UCState),
        st1.removed = st.removed.filter (fun y => decide (¬ y = casefold x.1)) →
        (k ∈ (updateCreatorsLoop rest st1).removed
          ↔ (k ∈ st.removed ∧ k ∉ cfgKeys (x :: rest))) := by
      intro st1 hst1
      rw [ih st1, hst1, List.mem_filter]
      simp only [decide_not, Bool.not_eq_true', decide_eq_false_iff_not]
      constructor
      · rintro ⟨⟨hm, hne⟩, hnr⟩
        refine ⟨hm, ?_⟩
        simp only [cfgKeys, List.map_cons, List.mem_cons]
        push_neg
        exact ⟨hne, by simpa [cfgKeys] using hnr⟩
      · rintro ⟨hm, hn⟩
        simp only [cfgKeys, List.map_cons, List.mem_cons] at hn
        push_neg at hn
        exact ⟨⟨hm, hn.1⟩, by simpa [cfgKeys] using hn.2⟩
    cases hx : dictGet st.creators (casefold x.1) <;> exact key_step _ rfl

theorem updateCreatorsLoop_events_updated
    (items : List (String × PicartoCreatorConfig)) (st : UCState)
    (hpres : ∀ kk ∈ cfgKeys items, (dictGet st.creators kk).isSome = true) :
    ∀ e ∈ (updateCreatorsLoop items st).events,
      e ∈ st.events ∨ ∃ kk, e = WEvent.updated kk := by
  induction items generalizing st with
  | nil => exact fun e he => Or.inl he
  | cons x rest ih =>
    rw [updateCreatorsLoop]
    have hx : (dictGet st.creators (casefold x.1)).isSome = true :=
      hpres (casefold x.1) (by simp [cfgKeys])
    cases hcx : dictGet st.creators (casefold x.1) with
    | none => rw [hcx] at hx; simp at hx
    | some creator =>
      intro e he
      have hpres1 : ∀ kk ∈ cfgKeys rest,
          (dictGet (dictInsert st.creators (casefold x.1)
            (creator.update_config x.1 x.2)) kk).isSome = true := by
        intro kk hkk
        by_cases hk : kk = casefold x.1
        · simp [dictGet_insert, hk]
        · rw [dictGet_insert_ne hk]
          exact hpres kk (by rw [cfgKeys, List.map_cons]; exact List.mem_cons_of_mem _ hkk)
      rcases ih _ hpres1 e he with hmem | hupd
      · rw [List.mem_append] at hmem
        rcases hmem with hmem | hmem
        · exact Or.inl hmem
        · rw [List.mem_singleton] at hmem
          exact Or.inr ⟨casefold x.1, hmem⟩
      · exact Or.inr hupd

theorem webhook_update_removed_mem (w : DiscordWebhook) (name : String)
    (config : DiscordWebhookConfig) (k : String) :
    k ∈ (updateCreatorsLoop config.creators
          ⟨w.creators, [],
           ((w.creators.map Prod.fst) ++ (w.last_notified.map Prod.fst)).dedup⟩).removed
      ↔ (((dictGet w.creators k).isSome = true
          ∨ (dictGet w.last_notified k).isSome = true)
         ∧ k ∉ cfgKeys config.creators) := by
  rw [updateCreatorsLoop_removed_mem]
  constructor
  · rintro ⟨hm, hn⟩
    rw [List.mem_dedup, List.mem_append] at hm
    refine ⟨?_, hn⟩
    rcases hm with hm | hm
    · exact Or.inl (dictGet_isSome_of_mem_keys hm)
    · exact Or.inr (dictGet_isSome_of_mem_keys hm)
  · rintro ⟨hm, hn⟩
    refine ⟨?_, hn⟩
    rw [List.mem_dedup, List.mem_append]
    rcases hm with hm | hm
    · exact Or.inl (mem_keys_of_dictGet_isSome hm)
    · exact Or.inr (mem_keys_of_dictGet_isSome hm)

/-- Key characterization of `DiscordWebhook.update_config`: after it runs,
    exactly the case-folded configured creator names are tracked. -/
theorem webhook_update_creators_get (w : DiscordWebhook) (name : String)
    (config : DiscordWebhookConfig) (k : String) :
    ((k ∈ cfgKeys config.creators →
        (dictGet (w.update_config name config).1.creators k).isSome = true)
     ∧ (k ∉ cfgKeys config.creators →
        dictGet (w.update_config name config).1.creators k = none)) := by
  rw [DiscordWebhook.update_config]
  constructor
  · intro hk
    simp only [dictGet_purgeAll]
    have hnr : k ∉ (updateCreatorsLoop config.creators
        ⟨w.creators, [],
         ((w.creators.map Prod.fst) ++ (w.last_notified.map Prod.fst)).dedup⟩).removed := by
      rw [webhook_update_removed_mem w name config k]
      rintro ⟨_, hn⟩
      exact hn hk
    simp only [hnr, if_false]
    exact updateCreatorsLoop_get_mem _ _ _ hk
  · intro hk
    simp only [dictGet_purgeAll]
    by_cases hr : k ∈ (updateCreatorsLoop config.creators
        ⟨w.creators, [],
         ((w.creators.map Prod.fst) ++ (w.last_notified.map Prod.fst)).dedup⟩).removed
    · simp [hr]
    · simp only [hr, if_false]
      rw [updateCreatorsLoop_get_not_mem _ _ _ hk]
      cases hg : dictGet w.creators k with
      | none => rfl
      | some c =>
        exfalso
        refine hr ((webhook_update_removed_mem w name config k).mpr ⟨?_, hk⟩)
        exact Or.inl (by simp [hg])

/-- Last-notified characterization of `DiscordWebhook.update_config`:
    surviving keys keep their timestamps, keys absent from the new
    configuration lose them. -/
theorem webhook_update_last_get (w : DiscordWebhook) (name : String)
    (config : DiscordWebhookConfig) (k : String) :
    ((k ∈ cfgKeys config.creators →
        dictGet (w.update_config name config).1.last_notified k
          = dictGet w.last_notified k)
     ∧ (k ∉ cfgKeys config.creators →
        dictGet (w.update_config name config).1.last_notified k = none)) := by
  rw [DiscordWebhook.update_config]
  constructor
  · intro hk
    simp only [dictGet_purgeAll]
    have hnr : k ∉ (updateCreatorsLoop config.creators
        ⟨w.creators, [],
         ((w.creators.map Prod.fst) ++ (w.last_notified.map Prod.fst)).dedup⟩).removed := by
      rw [webhook_update_removed_mem w name config k]
      rintro ⟨_, hn⟩
      exact hn hk
    simp [hnr]
  · intro hk
    simp only [dictGet_purgeAll]
    by_cases hr : k ∈ (updateCreatorsLoop config.creators
        ⟨w.creators, [],
         ((w.creators.map Prod.fst) ++ (w.last_notified.map Prod.fst)).dedup⟩).removed
    · simp [hr]
    · simp only [hr, if_false]
      cases hg : dictGet w.last_notified k with
      | none => rfl
      | some t =>
        exfalso
        refine hr ((webhook_update_removed_mem w name config k).mpr ⟨?_, hk⟩)
        exact Or.inr (by simp [hg])

theorem webhook_update_keysHyp (w : DiscordWebhook) (name : String)
    (config : DiscordWebhookConfig) :
    webhookKeysHyp (w.update_config name config).1 (cfgKeys config.creators) := by
  constructor
  · intro kk hkk
    exact (webhook_update_creators_get w name config kk).1 hkk
  · intro kk hsome
    by_contra hnk
    rcases hsome with hsome | hsome
    · rw [(webhook_update_creators_get w name config kk).2 hnk] at hsome
      simp at hsome
    · rw [(webhook_update_last_get w name config kk).2 hnk] at hsome
      simp at hsome

/-- Core of idempotent reconfiguration at the webhook level: updating a
    webhook whose tracked keys already coincide with the configured keys
    (and whose timestamps are confined to them) emits only "updated"
    events, leaves `last_notified` untouched, and neither adds nor removes
    tracked keys. -/
theorem webhook_update_idem (w : DiscordWebhook) (name : String)
    (config : DiscordWebhookConfig)
    (hyp : webhookKeysHyp w (cfgKeys config.creators)) :
    (∀ e ∈ (w.update_config name config).2, ∃ kk, e = WEvent.updated kk)
    ∧ (w.update_config name config).1.last_notified = w.last_notified
    ∧ (∀ k, (dictGet (w.update_config name config).1.creators k).isSome
        = (dictGet w.creators k).isSome) := by
  have hrem : (updateCreatorsLoop config.creators
      ⟨w.creators, [],
       ((w.creators.map Prod.fst) ++ (w.last_notified.map Prod.fst)).dedup⟩).removed
      = [] := by
    rw [List.eq_nil_iff_forall_not_mem]
    intro k hk
    rw [webhook_update_removed_mem w name config k] at hk
    exact hk.2 (hyp.2 k hk.1)
  refine ⟨?_, ?_, ?_⟩
  · intro e he
    rw [DiscordWebhook.update_config] at he
    simp only [hrem, List.filter_nil, List.map_nil, List.append_nil] at he
    have := updateCreatorsLoop_events_updated config.creators
      ⟨w.creators, [],
       ((w.creators.map Prod.fst) ++ (w.last_notified.map Prod.fst)).dedup⟩
      (fun kk hkk => hyp.1 kk hkk) e he
    rcases this with h | h
    · simp at h
    · exact h
  · rw [DiscordWebhook.update_config]
    simp only [hrem]
    rfl
  · intro k
    rw [DiscordWebhook.update_config]
    simp only [hrem]
    show (dictGet (purgeAll [] _) k).isSome = _
    rw [purgeAll]
    by_cases hk : k ∈ cfgKeys config.creators
    · rw [updateCreatorsLoop_get_mem _ _ _ hk, hyp.1 k hk]
    · rw [updateCreatorsLoop_get_not_mem _ _ _ hk]

/-! ### Lemmas about webhook reconciliation
    (`Notifier.update_config`, main.py lines 494-549) -/

theorem updateWebhooksLoop_isSome_mono
    (items : List (String × DiscordWebhookConfig)) (st : UWState) (k : String)
    (h : (dictGet st.webhooks k).isSome = true) :
    (dictGet (updateWebhooksLoop items st).webhooks k).isSome = true := by
  induction items generalizing st with
  | nil => exact h
  | cons x rest ih =>
    rw [updateWebhooksLoop]
    cases hx : dictGet st.webhooks (casefold x.1) <;>
    · apply ih
      by_cases hk : k = casefold x.1 <;>
        simp [dictGet_insert, hk, h]

theorem updateWebhooksLoop_get_not_mem
    (items : List (String × DiscordWebhookConfig)) (st : UWState) (k : String)
    (h : k ∉ cfgKeys items) :
    dictGet (updateWebhooksLoop items st).webhooks k = dictGet st.webhooks k := by
  induction items generalizing st with
  | nil => rfl
  | cons x rest ih =>
    have hk1 : ¬ k = casefold x.1 := by
      intro hh
      exact h (by simp [cfgKeys, hh])
    have hk2 : k ∉ cfgKeys rest := by
      intro hh
      refine h ?_
      simp only [cfgKeys, List.map_cons, List.mem_cons]
      exact Or.inr (by simpa [cfgKeys] using hh)
    rw [updateWebhooksLoop]
    cases hx : dictGet st.webhooks (casefold x.1) <;>
    · rw [ih _ hk2]
      simp [dictGet_insert, hk1]

theorem updateWebhooksLoop_get_mem
    (items : List (String × DiscordWebhookConfig)) (st : UWState) (k : String)
    (h : k ∈ cfgKeys items) :
    (dictGet (updateWebhooksLoop items st).webhooks k).isSome = true := by
  induction items generalizing st with
  | nil => simp [cfgKeys] at h
  | cons x rest ih =>
    rw [cfgKeys, List.map_cons, List.mem_cons] at h
    rw [updateWebhooksLoop]
    by_cases hk : k = casefold x.1
    · cases hx : dictGet st.webhooks (casefold x.1) <;>
      · apply updateWebhooksLoop_isSome_mono
        simp [dictGet_insert, hk]
    · have hmem : k ∈ cfgKeys rest := by
        rcases h with h | h
        · exact absurd h hk
        · exact h
      cases hx : dictGet st.webhooks (casefold x.1) <;> exact ih _ hmem

theorem updateWebhooksLoop_removed_mem
    (items : List (String × DiscordWebhookConfig)) (st : UWState) (k : String) :
    k ∈ (updateWebhooksLoop items st).removed
      ↔ (k ∈ st.removed ∧ k ∉ cfgKeys items) := by
  induction items generalizing st with
  | nil => simp [updateWebhooksLoop, cfgKeys]
  | cons x rest ih =>
    rw [updateWebhooksLoop]
    have key_step : ∀ (st1 : UWState),
        st1.removed = st.removed.filter (fun y => decide (¬ y = casefold x.1)) →
        (k ∈ (updateWebhooksLoop rest st1).removed
          ↔ (k ∈ st.removed ∧ k ∉ cfgKeys (x :: rest))) := by
      intro st1 hst1
      rw [ih st1, hst1, List.mem_filter]
      simp only [decide_not, Bool.not_eq_true', decide_eq_false_iff_not]
      constructor
      · rintro ⟨⟨hm, hne⟩, hnr⟩
        refine ⟨hm, ?_⟩
        simp only [cfgKeys, List.map_cons, List.mem_cons]
        push_neg
        exact ⟨hne, by simpa [cfgKeys] using hnr⟩
      · rintro ⟨hm, hn⟩
        simp only [cfgKeys, List.map_cons, List.mem_cons] at hn
        push_neg at hn
        exact ⟨⟨hm, hn.1⟩, by simpa [cfgKeys] using hn.2⟩
    cases hx : dictGet st.webhooks (casefold x.1) <;> exact key_step _ rfl

theorem notifier_apply_removed_mem (n : Notifier) (config : NotifierConfig)
    (k : String) :
    k ∈ (updateWebhooksLoop config.webhooks
          ⟨n.webhooks, [], (n.webhooks.map Prod.fst).dedup⟩).removed
      ↔ ((dictGet n.webhooks k).isSome = true ∧ k ∉ cfgKeys config.webhooks) := by
  rw [updateWebhooksLoop_removed_mem]
  constructor
  · rintro ⟨hm, hn⟩
    rw [List.mem_dedup] at hm
    exact ⟨dictGet_isSome_of_mem_keys hm, hn⟩
  · rintro ⟨hm, hn⟩
    exact ⟨by rw [List.mem_dedup]; exact mem_keys_of_dictGet_isSome hm, hn⟩

/-- Key characterization of the webhook map after `Notifier.apply_config`:
    exactly the case-folded configured webhook names survive. -/
theorem notifier_apply_webhooks_get (n : Notifier) (config : NotifierConfig)
    (now : Int) (k : String) :
    ((k ∈ cfgKeys config.webhooks →
        (dictGet (n.apply_config config now).1.webhooks k).isSome = true)
     ∧ (k ∉ cfgKeys config.webhooks →
        dictGet (n.apply_config config now).1.webhooks k = none)) := by
  rw [Notifier.apply_config]
  constructor
  · intro hk
    simp only [dictGet_purgeAll]
    have hnr : k ∉ (updateWebhooksLoop config.webhooks
        ⟨n.webhooks, [], (n.webhooks.map Prod.fst).dedup⟩).removed := by
      rw [notifier_apply_removed_mem n config k]
      rintro ⟨_, hn⟩
      exact hn hk
    simp only [hnr, if_false]
    exact updateWebhooksLoop_get_mem _ _ _ hk
  · intro hk
    simp only [dictGet_purgeAll]
    by_cases hr : k ∈ (updateWebhooksLoop config.webhooks
        ⟨n.webhooks, [], (n.webhooks.map Prod.fst).dedup⟩).removed
    · simp [hr]
    · simp only [hr, if_false]
      rw [updateWebhooksLoop_get_not_mem _ _ _ hk]
      cases hg : dictGet n.webhooks k with
      | none => rfl
      | some w =>
        exfalso
        exact hr ((notifier_apply_removed_mem n config k).mpr ⟨by simp [hg], hk⟩)

theorem updateWebhooksLoop_value
    (items : List (String × DiscordWebhookConfig)) (st : UWState)
    (hnd : (cfgKeys items).Nodup) :
    ∀ p ∈ items, ∃ w1,
      dictGet (updateWebhooksLoop items st).webhooks (casefold p.1) = some w1
      ∧ webhookKeysHyp w1 (cfgKeys p.2.creators) := by
  induction items generalizing st with
  | nil => intro p hp; simp at hp
  | cons x rest ih =>
    rw [cfgKeys, List.map_cons, List.nodup_cons] at hnd
    intro p hp
    rw [updateWebhooksLoop]
    rcases List.mem_cons.mp hp with rfl | hp2
    · have hkey : casefold p.1 ∉ cfgKeys rest := by
        simpa [cfgKeys] using hnd.1
      cases hx : dictGet st.webhooks (casefold p.1) with
      | some webhook =>
        refine ⟨(webhook.update_config p.1 p.2).1, ?_, webhook_update_keysHyp _ _ _⟩
        rw [updateWebhooksLoop_get_not_mem _ _ _ hkey]
        simp [dictGet_insert]
      | none =>
        refine ⟨(DiscordWebhook.init p.1 p.2).1, ?_, ?_⟩
        · rw [updateWebhooksLoop_get_not_mem _ _ _ hkey]
          simp [dictGet_insert]
        · rw [DiscordWebhook.init]
          exact webhook_update_keysHyp _ _ _
    · cases hx : dictGet st.webhooks (casefold x.1) <;>
        exact ih _ (by simpa [cfgKeys] using hnd.2) p hp2

theorem notifier_apply_stored (n : Notifier) (config : NotifierConfig) (now : Int)
    (hnd : (cfgKeys config.webhooks).Nodup) :
    ∀ p ∈ config.webhooks, ∃ w1,
      dictGet (n.apply_config config now).1.webhooks (casefold p.1) = some w1
      ∧ webhookKeysHyp w1 (cfgKeys p.2.creators) := by
  intro p hp
  obtain ⟨w1, hw1, hhyp⟩ := updateWebhooksLoop_value config.webhooks
    ⟨n.webhooks, [], (n.webhooks.map Prod.fst).dedup⟩ hnd p hp
  refine ⟨w1, ?_, hhyp⟩
  rw [Notifier.apply_config]
  simp only [dictGet_purgeAll]
  have hnr : casefold p.1 ∉ (updateWebhooksLoop config.webhooks
      ⟨n.webhooks, [], (n.webhooks.map Prod.fst).dedup⟩).removed := by
    rw [notifier_apply_removed_mem n config (casefold p.1)]
    rintro ⟨_, hn⟩
    exact hn (by exact List.mem_map.mpr ⟨p, hp, rfl⟩)
  simp only [hnr, if_false]
  exact hw1

theorem webhookSim_refl (a : DiscordWebhook) : webhookSim a a :=
  ⟨fun _ => rfl, fun _ => rfl⟩

theorem optWebhookSim_refl (o : Option DiscordWebhook) : optWebhookSim o o := by
  cases o with
  | none => trivial
  | some a => exact webhookSim_refl a

theorem optWebhookSim_trans {a b c : Option DiscordWebhook}
    (h1 : optWebhookSim a b) (h2 : optWebhookSim b c) : optWebhookSim a c := by
  cases a with
  | none =>
    cases b with
    | none =>
      cases c with
      | none => trivial
      | some cv => exact h2.elim
    | some bv => exact h1.elim
  | some av =>
    cases b with
    | none => exact h1.elim
    | some bv =>
      cases c with
      | none => exact h2.elim
      | some cv =>
        exact ⟨fun ck => (h1.1 ck).trans (h2.1 ck),
               fun ck => (h1.2 ck).trans (h2.2 ck)⟩

theorem updateWebhooksLoop_cons_some (x : String × DiscordWebhookConfig)
    (rest : List (String × DiscordWebhookConfig)) (st : UWState)
    {w1 : DiscordWebhook}
    (hw1 : dictGet st.webhooks (casefold x.1) = some w1) :
    updateWebhooksLoop (x :: rest) st = updateWebhooksLoop rest
      { webhooks := dictInsert st.webhooks (casefold x.1)
          (w1.update_config x.1 x.2).1,
        events := st.events ++ [NEvent.webhookUpdated (casefold x.1)]
                  ++ (w1.update_config x.1 x.2).2.map (NEvent.creator (casefold x.1)),
        removed := st.removed.filter (fun y => decide (¬ y = casefold x.1)) } := by
  rw [updateWebhooksLoop, hw1]

/-- Second-application lemma: running the webhook reconciliation loop over a
    state whose stored webhooks already match the configured key sets emits
    only update events and leaves every webhook observationally unchanged. -/
theorem updateWebhooksLoop_idem
    (items : List (String × DiscordWebhookConfig)) (st : UWState)
    (hnd : (cfgKeys items).Nodup)
    (hstored : ∀ p ∈ items, ∃ w1,
      dictGet st.webhooks (casefold p.1) = some w1
      ∧ webhookKeysHyp w1 (cfgKeys p.2.creators)) :
    (∀ e ∈ (updateWebhooksLoop items st).events,
        e ∈ st.events ∨ updateKind e = true)
    ∧ (∀ k, optWebhookSim (dictGet (updateWebhooksLoop items st).webhooks k)
        (dictGet st.webhooks k)) := by
  induction items generalizing st with
  | nil => exact ⟨fun e he => Or.inl he, fun k => optWebhookSim_refl _⟩
  | cons x rest ih =>
    rw [cfgKeys, List.map_cons, List.nodup_cons] at hnd
    have hnd2 : (cfgKeys rest).Nodup := hnd.2
    have hx1 : casefold x.1 ∉ cfgKeys rest := hnd.1
    obtain ⟨w1, hw1, hhyp⟩ := hstored x (List.mem_cons_self x rest)
    obtain ⟨hev, hlast, hcr⟩ := webhook_update_idem w1 x.1 x.2 hhyp
    have hsim1 : webhookSim (w1.update_config x.1 x.2).1 w1 := by
      refine ⟨?_, ?_⟩
      · intro ck
        rw [hlast]
      · intro ck
        exact hcr ck
    rw [updateWebhooksLoop_cons_some x rest st hw1]
    have hstored1 : ∀ p ∈ rest, ∃ wp,
        dictGet (dictInsert st.webhooks (casefold x.1)
          (w1.update_config x.1 x.2).1) (casefold p.1) = some wp
        ∧ webhookKeysHyp wp (cfgKeys p.2.creators) := by
      intro p hp
      obtain ⟨wp, hwp, hhp⟩ := hstored p (List.mem_cons_of_mem x hp)
      refine ⟨wp, ?_, hhp⟩
      have hne : ¬ casefold p.1 = casefold x.1 := by
        intro hh
        exact hx1 (hh ▸ List.mem_map.mpr ⟨p, hp, rfl⟩)
      rw [dictGet_insert_ne hne]
      exact hwp
    obtain ⟨ih1, ih2⟩ := ih
      ⟨dictInsert st.webhooks (casefold x.1) (w1.update_config x.1 x.2).1,
       st.events ++ [NEvent.webhookUpdated (casefold x.1)]
         ++ (w1.update_config x.1 x.2).2.map (NEvent.creator (casefold x.1)),
       st.removed.filter (fun y => decide (¬ y = casefold x.1))⟩ hnd2 hstored1
    refine ⟨?_, ?_⟩
    · intro e he
      rcases ih1 e he with hmem | hupd
      · simp only [List.mem_append, List.mem_singleton] at hmem
        rcases hmem with (hmem | hmem) | hmem
        · exact Or.inl hmem
        · subst hmem
          exact Or.inr rfl
        · rcases List.mem_map.mp hmem with ⟨we, hwe, hwe2⟩
          obtain ⟨kk, hkk⟩ := hev we hwe
          subst hwe2
          subst hkk
          exact Or.inr rfl
      · exact Or.inr hupd
    · intro k
      refine optWebhookSim_trans (ih2 k) ?_
      by_cases hk : k = casefold x.1
      · rw [hk, dictGet_insert_self, hw1]
        exact hsim1
      · rw [dictGet_insert_ne hk]
        exact optWebhookSim_refl _

theorem creatorConfigsEquiv_keys :
    ∀ {a b : List (String × PicartoCreatorConfig)},
      creatorConfigsEquiv a b = true → cfgKeys a = cfgKeys b := by
  intro a
  induction a with
  | nil =>
    intro b h
    cases b with
    | nil => rfl
    | cons q qs => exact Bool.noConfusion h
  | cons p ps ih =>
    intro b h
    cases b with
    | nil => exact Bool.noConfusion h
    | cons q qs =>
      rw [creatorConfigsEquiv] at h
      simp only [Bool.and_eq_true, decide_eq_true_eq] at h
      obtain ⟨⟨h1, _⟩, h3⟩ := h
      simp only [cfgKeys, List.map_cons]
      rw [h1]
      have := ih h3
      simp only [cfgKeys] at this
      rw [this]

theorem webhookConfigsEquiv_keys :
    ∀ {a b : List (String × DiscordWebhookConfig)},
      webhookConfigsEquiv a b = true → cfgKeys a = cfgKeys b := by
  intro a
  induction a with
  | nil =>
    intro b h
    cases b with
    | nil => rfl
    | cons q qs => exact Bool.noConfusion h
  | cons p ps ih =>
    intro b h
    cases b with
    | nil => exact Bool.noConfusion h
    | cons q qs =>
      rw [webhookConfigsEquiv] at h
      simp only [Bool.and_eq_true, decide_eq_true_eq] at h
      obtain ⟨⟨⟨h1, _⟩, _⟩, h4⟩ := h
      simp only [cfgKeys, List.map_cons]
      rw [h1]
      have := ih h4
      simp only [cfgKeys] at this
      rw [this]

theorem webhookConfigsEquiv_mem :
    ∀ {a b : List (String × DiscordWebhookConfig)},
      webhookConfigsEquiv a b = true →
      ∀ q ∈ b, ∃ p ∈ a, casefold p.1 = casefold q.1
        ∧ cfgKeys p.2.creators = cfgKeys q.2.creators := by
  intro a
  induction a with
  | nil =>
    intro b h q hq
    cases b with
    | nil => simp at hq
    | cons _ _ => exact Bool.noConfusion h
  | cons p ps ih =>
    intro b h q hq
    cases b with
    | nil => simp at hq
    | cons q0 qs =>
      rw [webhookConfigsEquiv] at h
      simp only [Bool.and_eq_true, decide_eq_true_eq] at h
      obtain ⟨⟨⟨h1, _⟩, h3⟩, h4⟩ := h
      rcases List.mem_cons.mp hq with rfl | hq2
      · exact ⟨p, List.mem_cons_self p ps, h1, creatorConfigsEquiv_keys h3⟩
      · obtain ⟨p1, hp1, hp2, hp3⟩ := ih h4 q hq2
        exact ⟨p1, List.mem_cons_of_mem p hp1, hp2, hp3⟩

theorem notifier_apply_components (n : Notifier) (config : NotifierConfig)
    (now : Int) :
    (n.apply_config config now).1.webhooks
      = purgeAll (updateWebhooksLoop config.webhooks
          ⟨n.webhooks, [], (n.webhooks.map Prod.fst).dedup⟩).removed
          (updateWebhooksLoop config.webhooks
            ⟨n.webhooks, [], (n.webhooks.map Prod.fst).dedup⟩).webhooks
    ∧ (n.apply_config config now).2
      = (updateWebhooksLoop config.webhooks
          ⟨n.webhooks, [], (n.webhooks.map Prod.fst).dedup⟩).events
        ++ ((updateWebhooksLoop config.webhooks
            ⟨n.webhooks, [], (n.webhooks.map Prod.fst).dedup⟩).removed.filter
            (fun k => (dictGet (updateWebhooksLoop config.webhooks
              ⟨n.webhooks, [], (n.webhooks.map Prod.fst).dedup⟩).webhooks
                k).isSome)).map NEvent.webhookRemoved :=
  ⟨rfl, rfl⟩

theorem optWebhookSim_isSome {a b : Option DiscordWebhook}
    (h : optWebhookSim a b) : a.isSome = b.isSome := by
  cases a <;> cases b
  · rfl
  · exact h.elim
  · exact h.elim
  · rfl

theorem optWebhookSim_some_some {x y : DiscordWebhook}
    (h : optWebhookSim (some x) (some y)) : webhookSim x y := h

theorem notifier_reapply_equiv (n : Notifier) (cfg cfg2 : NotifierConfig)
    (now1 now2 : Int)
    (hequiv : notifierConfigEquiv cfg cfg2 = true)
    (hnd : (cfgKeys cfg.webhooks).Nodup) :
    (∀ e ∈ ((n.apply_config cfg now1).1.apply_config cfg2 now2).2,
        updateKind e = true)
    ∧ (∀ wk, (dictGet ((n.apply_config cfg now1).1.apply_config cfg2
          now2).1.webhooks wk).isSome
        = (dictGet (n.apply_config cfg now1).1.webhooks wk).isSome)
    ∧ (∀ wk w2 w1,
        dictGet ((n.apply_config cfg now1).1.apply_config cfg2
          now2).1.webhooks wk = some w2 →
        dictGet (n.apply_config cfg now1).1.webhooks wk = some w1 →
        (∀ ck, dictGet w2.last_notified ck = dictGet w1.last_notified ck)
        ∧ (∀ ck, (dictGet w2.creators ck).isSome
            = (dictGet w1.creators ck).isSome)) := by
  have hwe : webhookConfigsEquiv cfg.webhooks cfg2.webhooks = true := by
    rw [notifierConfigEquiv] at hequiv
    simp only [Bool.and_eq_true] at hequiv
    exact hequiv.2
  have hkeys : cfgKeys cfg.webhooks = cfgKeys cfg2.webhooks :=
    webhookConfigsEquiv_keys hwe
  have hnd2 : (cfgKeys cfg2.webhooks).Nodup := hkeys ▸ hnd
  have hstored2 : ∀ q ∈ cfg2.webhooks, ∃ w1,
      dictGet (n.apply_config cfg now1).1.webhooks (casefold q.1) = some w1
      ∧ webhookKeysHyp w1 (cfgKeys q.2.creators) := by
    intro q hq
    obtain ⟨p, hp, hpq, hkk⟩ := webhookConfigsEquiv_mem hwe q hq
    obtain ⟨w1, hw1, hhyp⟩ := notifier_apply_stored n cfg now1 hnd p hp
    exact ⟨w1, by rw [← hpq]; exact hw1, hkk ▸ hhyp⟩
  obtain ⟨hev, hsim⟩ := updateWebhooksLoop_idem cfg2.webhooks
    ⟨(n.apply_config cfg now1).1.webhooks, [],
     ((n.apply_config cfg now1).1.webhooks.map Prod.fst).dedup⟩ hnd2 hstored2
  have hrem : (updateWebhooksLoop cfg2.webhooks
      ⟨(n.apply_config cfg now1).1.webhooks, [],
       ((n.apply_config cfg now1).1.webhooks.map Prod.fst).dedup⟩).removed
      = [] := by
    rw [List.eq_nil_iff_forall_not_mem]
    intro k hk
    rw [notifier_apply_removed_mem _ cfg2 k] at hk
    have hmem : k ∈ cfgKeys cfg.webhooks := by
      by_contra hn2
      rw [(notifier_apply_webhooks_get n cfg now1 k).2 hn2] at hk
      simp at hk
    exact hk.2 (hkeys ▸ hmem)
  obtain ⟨hcw, hce⟩ :=
    notifier_apply_components (n.apply_config cfg now1).1 cfg2 now2
  have hcw2 : ((n.apply_config cfg now1).1.apply_config cfg2 now2).1.webhooks
      = (updateWebhooksLoop cfg2.webhooks
          ⟨(n.apply_config cfg now1).1.webhooks, [],
           ((n.apply_config cfg now1).1.webhooks.map Prod.fst).dedup⟩).webhooks := by
    rw [hcw, hrem, purgeAll]
  have hce2 : ((n.apply_config cfg now1).1.apply_config cfg2 now2).2
      = (updateWebhooksLoop cfg2.webhooks
          ⟨(n.apply_config cfg now1).1.webhooks, [],
           ((n.apply_config cfg now1).1.webhooks.map Prod.fst).dedup⟩).events := by
    rw [hce, hrem]
    simp
  refine ⟨?_, ?_, ?_⟩
  · intro e he
    rw [hce2] at he
    rcases hev e he with h | h
    · exact absurd h (List.not_mem_nil e)
    · exact h
  · intro wk
    rw [hcw2]
    exact optWebhookSim_isSome (hsim wk)
  · intro wk w2 w1 h2 h1
    rw [hcw2] at h2
    have hs := hsim wk
    rw [h2, h1] at hs
    exact ⟨(optWebhookSim_some_some hs).1, (optWebhookSim_some_some hs).2⟩

/-! ### Allowed-mentions lemmas (main.py lines 267-289) -/

theorem am_roles_eq (c : PicartoCreator) :
    (c._create_allowed_mentions_dict).roles
      = if 0 < c.ping_roles.length ∧ c.ping_roles.length ≤ 100
        then some c.ping_roles else none := by
  rw [PicartoCreator._create_allowed_mentions_dict]
  dsimp only
  by_cases h1 : c.ping_roles.length > 100
  · have h2 : ¬ (0 < c.ping_roles.length ∧ c.ping_roles.length ≤ 100) := by omega
    simp [h1, h2]
  · by_cases h2 : c.ping_roles.length > 0
    · have h3 : 0 < c.ping_roles.length ∧ c.ping_roles.length ≤ 100 := by omega
      simp [h1, h2, h3]
    · have h3 : ¬ (0 < c.ping_roles.length ∧ c.ping_roles.length ≤ 100) := by omega
      simp [h1, h2, h3]

theorem am_users_eq (c : PicartoCreator) :
    (c._create_allowed_mentions_dict).users
      = if 0 < c.ping_users.length ∧ c.ping_users.length ≤ 100
        then some c.ping_users else none := by
  rw [PicartoCreator._create_allowed_mentions_dict]
  dsimp only
  by_cases h1 : c.ping_users.length > 100
  · have h2 : ¬ (0 < c.ping_users.length ∧ c.ping_users.length ≤ 100) := by omega
    simp [h1, h2]
  · by_cases h2 : c.ping_users.length > 0
    · have h3 : 0 < c.ping_users.length ∧ c.ping_users.length ≤ 100 := by omega
      simp [h1, h2, h3]
    · have h3 : ¬ (0 < c.ping_users.length ∧ c.ping_users.length ≤ 100) := by omega
      simp [h1, h2, h3]

theorem am_parse_roles_iff (c : PicartoCreator) :
    ("roles" ∈ (c._create_allowed_mentions_dict).parse)
      ↔ 100 < c.ping_roles.length := by
  have hne1 : ¬ ("roles" : String) = "everyone" := by decide
  have hne2 : ¬ ("roles" : String) = "user" := by decide
  rw [PicartoCreator._create_allowed_mentions_dict]
  dsimp only
  by_cases he : (c.ping_everyone || c.ping_here) = true <;>
    by_cases hr : c.ping_roles.length > 100 <;>
      by_cases hu : c.ping_users.length > 100 <;>
        simp [he, hr, hu, List.mem_append, hne1, hne2]

theorem am_parse_user_iff (c : PicartoCreator) :
    ("user" ∈ (c._create_allowed_mentions_dict).parse)
      ↔ 100 < c.ping_users.length := by
  have hne1 : ¬ ("user" : String) = "everyone" := by decide
  have hne2 : ¬ ("user" : String) = "roles" := by decide
  rw [PicartoCreator._create_allowed_mentions_dict]
  dsimp only
  by_cases he : (c.ping_everyone || c.ping_here) = true <;>
    by_cases hr : c.ping_roles.length > 100 <;>
      by_cases hu : c.ping_users.length > 100 <;>
        simp [he, hr, hu, List.mem_append, hne1, hne2]

/-- C3: for every creator record, a role-id set of size between 1 and 100
    yields an explicit `roles` list enumerating exactly the set (and no
    blanket `"roles"` token in `parse`); a set of more than 100 ids yields
    the blanket token and no explicit list; the same holds independently
    for user ids with the `users` list and the blanket user token the code
    pushes into `parse` (the string `"user"`, main.py line 284). -/
theorem claim_C3_mention_cap (c : PicartoCreator) :
    ((c._create_allowed_mentions_dict).roles
      = if 0 < c.ping_roles.length ∧ c.ping_roles.length ≤ 100
        then some c.ping_roles else none)
    ∧ (("roles" ∈ (c._create_allowed_mentions_dict).parse)
        ↔ 100 < c.ping_roles.length)
    ∧ ((c._create_allowed_mentions_dict).users
      = if 0 < c.ping_users.length ∧ c.ping_users.length ≤ 100
        then some c.ping_users else none)
    ∧ (("user" ∈ (c._create_allowed_mentions_dict).parse)
        ↔ 100 < c.ping_users.length) :=
  ⟨am_roles_eq c, am_parse_roles_iff c, am_users_eq c, am_parse_user_iff c⟩

/-- C10: the allowed-mentions object never carries both an explicit id list
    and the corresponding blanket parse token for the same mention kind: an
    explicit `roles` (resp. `users`) list is present only when the id set
    is non-empty and of size at most 100, and then the blanket token for
    that kind is absent from `parse`.  (The `parse` key itself is always
    present: the model's `AllowedMentions.parse` field is total, mirroring
    the unconditional `result['parse'] = parse` at main.py line 288.) -/
theorem claim_C10_no_list_with_blanket (c : PicartoCreator) :
    ((c._create_allowed_mentions_dict).roles = none
      ∨ ("roles" ∉ (c._create_allowed_mentions_dict).parse
         ∧ 0 < c.ping_roles.length ∧ c.ping_roles.length ≤ 100))
    ∧ ((c._create_allowed_mentions_dict).users = none
      ∨ ("user" ∉ (c._create_allowed_mentions_dict).parse
         ∧ 0 < c.ping_users.length ∧ c.ping_users.length ≤ 100)) := by
  constructor
  · by_cases h : 0 < c.ping_roles.length ∧ c.ping_roles.length ≤ 100
    · refine Or.inr ⟨?_, h.1, h.2⟩
      rw [am_parse_roles_iff c]
      omega
    · refine Or.inl ?_
      rw [am_roles_eq c]
      simp [h]
  · by_cases h : 0 < c.ping_users.length ∧ c.ping_users.length ≤ 100
    · refine Or.inr ⟨?_, h.1, h.2⟩
      rw [am_parse_user_iff c]
      omega
    · refine Or.inl ?_
      rw [am_users_eq c]
      simp [h]

/-- C1 (failing input): the cooldown comparison at main.py line 385 reads
    `self.last_notified[c_key] - now < NOTIFY_INTERVAL`, with the operands
    of the subtraction inverted, so it holds whenever a record exists.  For
    a creator last notified at T = 0, a notify call at exactly T plus the
    30-minute window (now = 1800) attempts no delivery and leaves the
    timestamp at 0 — and so does a call a billion seconds later — where the
    claim requires an attempt at T + W or later.  A creator with no
    last-notified record is attempted (and stamped), as the claim states. -/
theorem claim_C1_cooldown_inverted :
    NOTIFY_INTERVAL = 1800
    ∧ ((DiscordWebhook.mk "W" "u" [("foo", PicartoCreator.init "Foo" ⟨[]⟩)]
        [("foo", (0 : Int))]).notify [("foo", ⟨some "Foo"⟩)] 1800
        (fun _ => true)).attempts = []
    ∧ ((DiscordWebhook.mk "W" "u" [("foo", PicartoCreator.init "Foo" ⟨[]⟩)]
        [("foo", (0 : Int))]).notify [("foo", ⟨some "Foo"⟩)] 1800
        (fun _ => true)).success = true
    ∧ dictGet ((DiscordWebhook.mk "W" "u"
        [("foo", PicartoCreator.init "Foo" ⟨[]⟩)]
        [("foo", (0 : Int))]).notify [("foo", ⟨some "Foo"⟩)] 1800
        (fun _ => true)).webhook.last_notified "foo" = some 0
    ∧ ((DiscordWebhook.mk "W" "u" [("foo", PicartoCreator.init "Foo" ⟨[]⟩)]
        [("foo", (0 : Int))]).notify [("foo", ⟨some "Foo"⟩)] 1000000000
        (fun _ => true)).attempts = []
    ∧ ((DiscordWebhook.mk "W" "u" [("foo", PicartoCreator.init "Foo" ⟨[]⟩)]
        []).notify [("foo", ⟨some "Foo"⟩)] 1800 (fun _ => true)).attempts
        = ["foo"]
    ∧ dictGet ((DiscordWebhook.mk "W" "u"
        [("foo", PicartoCreator.init "Foo" ⟨[]⟩)]
        []).notify [("foo", ⟨some "Foo"⟩)] 1800
        (fun _ => true)).webhook.last_notified "foo" = some 1800 := by
  refine ⟨rfl, ?_, ?_, ?_, ?_, ?_, ?_⟩ <;> decide

/-- C2 (failing input): the refresh guard at main.py line 436 reads
    `self.last_config_update - now >= self.config_update_interval`, again
    with inverted operands, so for any `now` at or after the last fetch the
    difference is non-positive and the guard never fires.  With the last
    successful fetch at time 0 and the nominal one-hour interval, a tick at
    now = 7200 (elapsed 7200 s > 3600 s) does not trigger a refetch,
    contradicting the claimed if-and-only-if. -/
theorem claim_C2_refresh_inverted :
    CONFIG_UPDATE_INTERVAL = 3600
    ∧ 7200 - (0 : Int) > CONFIG_UPDATE_INTERVAL
    ∧ (Notifier.mk 0 CONFIG_UPDATE_INTERVAL "" "" [] []).config_refresh_check
        7200 = false
    ∧ ∀ elapsed : Nat,
        (Notifier.mk 0 CONFIG_UPDATE_INTERVAL "" "" [] []).config_refresh_check
          (elapsed : Int) = false := by
  refine ⟨rfl, by decide, by decide, ?_⟩
  intro elapsed
  rw [Notifier.config_refresh_check]
  simp only [decide_eq_false_iff_not]
  intro hcontra
  rw [CONFIG_UPDATE_INTERVAL] at hcontra
  omega

/-- C8 (failing input): `validate_creator_config` rejects integer role ids
    (line 86 requires a `str`) and rejects decimal-string user ids (the
    `not not isinstance(flake, str)` slip at line 94 errors exactly on
    strings), while the claim — and the `Required[int]` declarations of
    config_types.py — require both the integer and decimal-string forms to
    be accepted for both kinds.  The claimed round-trip list itself fails
    validation, although parsing it does yield Everyone with roles 42 and
    users 7. -/
theorem claim_C8_id_forms :
    pingCheck (Ping.pdict [("role", ConfigVal.vint 42)]) = PingCheck.err
    ∧ pingCheck (Ping.pdict [("user", ConfigVal.vstr "7")]) = PingCheck.err
    ∧ pingCheck (Ping.pdict [("role", ConfigVal.vstr "42")]) = PingCheck.ok
    ∧ pingCheck (Ping.pdict [("user", ConfigVal.vint 7)]) = PingCheck.ok
    ∧ validate_creator_config ⟨[Ping.pstr "@everyone",
        Ping.pdict [("role", ConfigVal.vint 42)],
        Ping.pdict [("user", ConfigVal.vint 7)]]⟩ = false
    ∧ (PicartoCreator.init "x" ⟨[Ping.pstr "@everyone",
        Ping.pdict [("role", ConfigVal.vint 42)],
        Ping.pdict [("user", ConfigVal.vint 7)]]⟩).ping_everyone = true
    ∧ (PicartoCreator.init "x" ⟨[Ping.pstr "@everyone",
        Ping.pdict [("role", ConfigVal.vint 42)],
        Ping.pdict [("user", ConfigVal.vint 7)]]⟩).ping_roles
        = [ConfigVal.vint 42]
    ∧ (PicartoCreator.init "x" ⟨[Ping.pstr "@everyone",
        Ping.pdict [("role", ConfigVal.vint 42)],
        Ping.pdict [("user", ConfigVal.vint 7)]]⟩).ping_users
        = [ConfigVal.vint 7] := by
  refine ⟨rfl, rfl, rfl, rfl, ?_, ?_, ?_, ?_⟩ <;> decide

/-- C4 (counterexample): the claim requires any string case-insensitively
    equal to `"everyone"` to set the Everyone flag, but the comparisons at
    main.py lines 228-231 (and 101-104) are exact: parsing `"EVERYONE"`
    leaves the flag unset, and validation files it as an unrecognized-ping
    warning. -/
theorem claim_C4_counterexample :
    casefold "EVERYONE" = casefold "everyone"
    ∧ (PicartoCreator.init "x" ⟨[Ping.pstr "EVERYONE"]⟩).ping_everyone = false
    ∧ pingCheck (Ping.pstr "EVERYONE") = PingCheck.warn := by
  refine ⟨?_, ?_, ?_⟩ <;> decide

/-- C4 (amended): with the string comparisons taken exactly as written —
    case-SENSITIVE equality against `"@everyone"`/`"everyone"` and
    `"@here"`/`"here"` — every matching entry sets the corresponding flag,
    a mapping with a `role` key adds its value to the role set, a mapping
    without `role` but with `user` adds to the user set, and every other
    entry is skipped by the parser (leaving the record unchanged) and is a
    warning, never an error, for validation, whose overall result is false
    exactly when some entry errors. -/
theorem claim_C4_amended :
    (∀ (c : PicartoCreator) (nm : String) (ps : List Ping),
        (Ping.pstr "@everyone" ∈ ps ∨ Ping.pstr "everyone" ∈ ps) →
        (c.update_config nm ⟨ps⟩).ping_everyone = true)
    ∧ (∀ (c : PicartoCreator) (nm : String) (ps : List Ping),
        (Ping.pstr "@here" ∈ ps ∨ Ping.pstr "here" ∈ ps) →
        (c.update_config nm ⟨ps⟩).ping_here = true)
    ∧ (∀ (c : PicartoCreator) (nm : String) (ps : List Ping)
        (entries : List (String × ConfigVal)) (v : ConfigVal),
        Ping.pdict entries ∈ ps → dictGet entries "role" = some v →
        v ∈ (c.update_config nm ⟨ps⟩).ping_roles)
    ∧ (∀ (c : PicartoCreator) (nm : String) (ps : List Ping)
        (entries : List (String × ConfigVal)) (v : ConfigVal),
        Ping.pdict entries ∈ ps → dictGet entries "role" = none →
        dictGet entries "user" = some v →
        v ∈ (c.update_config nm ⟨ps⟩).ping_users)
    ∧ (∀ (c : PicartoCreator) (p : Ping), pingRecognized p = false →
        processPing c p = c ∧ pingCheck p = PingCheck.warn)
    ∧ (∀ (cfg : PicartoCreatorConfig),
        validate_creator_config cfg = true
          ↔ ∀ p ∈ cfg.pings, ¬ pingCheck p = PingCheck.err) := by
  refine ⟨?_, ?_, ?_, ?_, ?_, ?_⟩
  · intro c nm ps h
    exact foldl_everyone_of_mem _ h
  · intro c nm ps h
    exact foldl_here_of_mem _ h
  · intro c nm ps entries v hmem hrole
    exact foldl_role_of_mem _ hmem hrole
  · intro c nm ps entries v hmem hrole huser
    exact foldl_user_of_mem _ hmem hrole huser
  · intro c p h
    exact ⟨processPing_skip h, pingCheck_warn_of_unrecognized h⟩
  · intro cfg
    rw [validate_creator_config_eq_all, List.all_eq_true]
    constructor
    · intro h p hp
      have := h p hp
      simpa using this
    · intro h p hp
      simpa using h p hp

/-- C4 witness: each clause of `claim_C4_amended` evaluated at a concrete
    input. -/
theorem claim_C4_witness :
    ((PicartoCreator.mk "x" none false false [] []).update_config "x"
        ⟨[Ping.pstr "@everyone"]⟩).ping_everyone = true
    ∧ ((PicartoCreator.mk "x" none false false [] []).update_config "x"
        ⟨[Ping.pstr "here"]⟩).ping_here = true
    ∧ ConfigVal.vint 5 ∈ ((PicartoCreator.mk "x" none false false [] []).update_config
        "x" ⟨[Ping.pdict [("role", ConfigVal.vint 5)]]⟩).ping_roles
    ∧ ConfigVal.vint 7 ∈ ((PicartoCreator.mk "x" none false false [] []).update_config
        "x" ⟨[Ping.pdict [("user", ConfigVal.vint 7)]]⟩).ping_users
    ∧ (processPing (PicartoCreator.mk "x" none false false [] []) Ping.pother
        = PicartoCreator.mk "x" none false false [] []
       ∧ pingCheck Ping.pother = PingCheck.warn)
    ∧ (validate_creator_config ⟨[Ping.pstr "zzz"]⟩ = true
        ↔ ∀ p ∈ [Ping.pstr "zzz"], ¬ pingCheck p = PingCheck.err) :=
  ⟨claim_C4_amended.1 (PicartoCreator.mk "x" none false false [] []) "x"
     [Ping.pstr "@everyone"] (Or.inl (by decide)),
   claim_C4_amended.2.1 (PicartoCreator.mk "x" none false false [] []) "x"
     [Ping.pstr "here"] (Or.inr (by decide)),
   claim_C4_amended.2.2.1 (PicartoCreator.mk "x" none false false [] []) "x"
     [Ping.pdict [("role", ConfigVal.vint 5)]] [("role", ConfigVal.vint 5)]
     (ConfigVal.vint 5) (by decide) (by decide),
   claim_C4_amended.2.2.2.1 (PicartoCreator.mk "x" none false false [] []) "x"
     [Ping.pdict [("user", ConfigVal.vint 7)]] [("user", ConfigVal.vint 7)]
     (ConfigVal.vint 7) (by decide) (by decide) (by decide),
   claim_C4_amended.2.2.2.2.1 (PicartoCreator.mk "x" none false false [] [])
     Ping.pother (by decide),
   claim_C4_amended.2.2.2.2.2 ⟨[Ping.pstr "zzz"]⟩⟩

/-- C9: the case-insensitive identity key of a creator record is fixed by
    case-fold-equal renames — the setter at main.py lines 206-210 leaves
    the whole record unchanged (in particular the key), so at most the
    display casing could ever change — and learning the platform's
    canonical name in `create_webhook_post_json` (lines 244-246) writes
    only the observed display name `__actual_name`, never the configured
    `__name` the identity key derives from, nor the mention state. -/
theorem claim_C9_identity_key_fixed (c : PicartoCreator) :
    (∀ nm, casefold nm = casefold c.__name → c.set_name nm = c)
    ∧ (∀ data : LiveData,
        (c.create_webhook_post_json data).1.__name = c.__name
        ∧ (c.create_webhook_post_json data).1.ping_everyone = c.ping_everyone
        ∧ (c.create_webhook_post_json data).1.ping_here = c.ping_here
        ∧ (c.create_webhook_post_json data).1.ping_roles = c.ping_roles
        ∧ (c.create_webhook_post_json data).1.ping_users = c.ping_users
        ∧ ∀ nm2, data.name = some nm2 →
            (c.create_webhook_post_json data).1.__actual_name = some nm2) := by
  constructor
  · intro nm h
    rw [PicartoCreator.set_name]
    simp [h]
  · intro data
    cases hd : data.name <;>
      simp [PicartoCreator.create_webhook_post_json, hd]

/-- C9 witness: `claim_C9_identity_key_fixed` at a record configured as
    "Alice", renamed to "ALICE" and shown the canonical name "alice". -/
theorem claim_C9_identity_key_fixed_witness :
    casefold "ALICE" = casefold (PicartoCreator.init "Alice" ⟨[]⟩).__name
    ∧ (PicartoCreator.init "Alice" ⟨[]⟩).set_name "ALICE"
        = PicartoCreator.init "Alice" ⟨[]⟩
    ∧ (LiveData.mk (some "alice")).name = some "alice"
    ∧ ((PicartoCreator.init "Alice" ⟨[]⟩).create_webhook_post_json
        (LiveData.mk (some "alice"))).1.__actual_name = some "alice" :=
  ⟨by decide,
   (claim_C9_identity_key_fixed (PicartoCreator.init "Alice" ⟨[]⟩)).1 "ALICE"
     (by decide),
   rfl,
   ((claim_C9_identity_key_fixed (PicartoCreator.init "Alice" ⟨[]⟩)).2
     (LiveData.mk (some "alice"))).2.2.2.2.2 "alice" rfl⟩

/-- C5: after `DiscordWebhook.update_config`, a creator key absent from the
    new configuration's creator list (under case folding) is present in
    neither the creator map nor the last-notified map — both are purged
    together, including keys that only ever had a last-notified entry —
    so every remaining last-notified key has a creator record, and a
    subsequent online event for a removed creator produces no delivery
    attempt and records no timestamp. -/
theorem claim_C5_removed_creator (w : DiscordWebhook) (name : String)
    (config : DiscordWebhookConfig) :
    (∀ k, (∀ p ∈ config.creators, ¬ casefold p.1 = k) →
        dictGet (w.update_config name config).1.creators k = none
        ∧ dictGet (w.update_config name config).1.last_notified k = none)
    ∧ (∀ k, (dictGet (w.update_config name config).1.last_notified k).isSome
          = true →
        (dictGet (w.update_config name config).1.creators k).isSome = true)
    ∧ (∀ k (online : List (String × LiveData)) (now : Int)
        (post : String → Bool),
        (∀ p ∈ config.creators, ¬ casefold p.1 = k) →
        k ∉ ((w.update_config name config).1.notify online now post).attempts
        ∧ dictGet ((w.update_config name config).1.notify online now
            post).webhook.last_notified k = none) := by
  have hnotmem : ∀ k, (∀ p ∈ config.creators, ¬ casefold p.1 = k) →
      k ∉ cfgKeys config.creators := by
    intro k hk hmem
    simp only [cfgKeys] at hmem
    rcases List.mem_map.mp hmem with ⟨p, hp, hpe⟩
    exact hk p hp hpe
  refine ⟨?_, ?_, ?_⟩
  · intro k hk
    have hnk := hnotmem k hk
    exact ⟨(webhook_update_creators_get w name config k).2 hnk,
           (webhook_update_last_get w name config k).2 hnk⟩
  · intro k hsome
    by_cases hmem : k ∈ cfgKeys config.creators
    · exact (webhook_update_creators_get w name config k).1 hmem
    · rw [(webhook_update_last_get w name config k).2 hmem] at hsome
      simp at hsome
  · intro k online now post hk
    have hnk := hnotmem k hk
    have hnone : dictGet (w.update_config name config).1.creators k = none :=
      (webhook_update_creators_get w name config k).2 hnk
    have hlast : dictGet (w.update_config name config).1.last_notified k
        = none := (webhook_update_last_get w name config k).2 hnk
    obtain ⟨g1, g2, g3⟩ := notifyLoop_absent online now post
      ⟨(w.update_config name config).1, true, []⟩ k hnone
    rw [DiscordWebhook.notify]
    constructor
    · intro hmem
      have h0 := g3.mp hmem
      simp at h0
    · rw [g2]
      exact hlast

/-- C5 witness: `claim_C5_removed_creator` at a webhook that tracked "old"
    (with timestamps for "old", a stale "ghost" timestamp with no record,
    and a "new" timestamp), reconfigured to track only "New". -/
theorem claim_C5_removed_creator_witness :
    (∀ p ∈ (DiscordWebhookConfig.mk "u2" [("New",
        PicartoCreatorConfig.mk [])]).creators, ¬ casefold p.1 = "ghost")
    ∧ (dictGet ((DiscordWebhook.mk "W" "u"
        [("old", PicartoCreator.init "Old" ⟨[]⟩)]
        [("old", (3 : Int)), ("ghost", 5), ("new", 4)]).update_config "W"
        (DiscordWebhookConfig.mk "u2"
          [("New", PicartoCreatorConfig.mk [])])).1.creators "ghost" = none
      ∧ dictGet ((DiscordWebhook.mk "W" "u"
        [("old", PicartoCreator.init "Old" ⟨[]⟩)]
        [("old", (3 : Int)), ("ghost", 5), ("new", 4)]).update_config "W"
        (DiscordWebhookConfig.mk "u2"
          [("New", PicartoCreatorConfig.mk [])])).1.last_notified "ghost"
        = none)
    ∧ (dictGet ((DiscordWebhook.mk "W" "u"
        [("old", PicartoCreator.init "Old" ⟨[]⟩)]
        [("old", (3 : Int)), ("ghost", 5), ("new", 4)]).update_config "W"
        (DiscordWebhookConfig.mk "u2"
          [("New", PicartoCreatorConfig.mk [])])).1.last_notified
        "new").isSome = true
    ∧ (dictGet ((DiscordWebhook.mk "W" "u"
        [("old", PicartoCreator.init "Old" ⟨[]⟩)]
        [("old", (3 : Int)), ("ghost", 5), ("new", 4)]).update_config "W"
        (DiscordWebhookConfig.mk "u2"
          [("New", PicartoCreatorConfig.mk [])])).1.creators "new").isSome
        = true
    ∧ ("old" ∉ (((DiscordWebhook.mk "W" "u"
        [("old", PicartoCreator.init "Old" ⟨[]⟩)]
        [("old", (3 : Int)), ("ghost", 5), ("new", 4)]).update_config "W"
        (DiscordWebhookConfig.mk "u2"
          [("New", PicartoCreatorConfig.mk [])])).1.notify
          [("old", LiveData.mk none)] 0 (fun _ => true)).attempts
      ∧ dictGet (((DiscordWebhook.mk "W" "u"
        [("old", PicartoCreator.init "Old" ⟨[]⟩)]
        [("old", (3 : Int)), ("ghost", 5), ("new", 4)]).update_config "W"
        (DiscordWebhookConfig.mk "u2"
          [("New", PicartoCreatorConfig.mk [])])).1.notify
          [("old", LiveData.mk none)] 0
          (fun _ => true)).webhook.last_notified "old" = none) :=
  ⟨by decide,
   (claim_C5_removed_creator (DiscordWebhook.mk "W" "u"
      [("old", PicartoCreator.init "Old" ⟨[]⟩)]
      [("old", (3 : Int)), ("ghost", 5), ("new", 4)]) "W"
      (DiscordWebhookConfig.mk "u2" [("New", PicartoCreatorConfig.mk [])])).1
     "ghost" (by decide),
   by decide,
   (claim_C5_removed_creator (DiscordWebhook.mk "W" "u"
      [("old", PicartoCreator.init "Old" ⟨[]⟩)]
      [("old", (3 : Int)), ("ghost", 5), ("new", 4)]) "W"
      (DiscordWebhookConfig.mk "u2" [("New", PicartoCreatorConfig.mk [])])).2.1
     "new" (by decide),
   (claim_C5_removed_creator (DiscordWebhook.mk "W" "u"
      [("old", PicartoCreator.init "Old" ⟨[]⟩)]
      [("old", (3 : Int)), ("ghost", 5), ("new", 4)]) "W"
      (DiscordWebhookConfig.mk "u2" [("New", PicartoCreatorConfig.mk [])])).2.2
     "old" [("old", LiveData.mk none)] 0 (fun _ => true) (by decide)⟩

/-- C6 (counterexample): idempotence fails when two webhook names of the
    same configuration collide under case folding.  With webhooks "A"
    (creator "x") and "a" (creator "y") in one document, the two entries
    fight over the single record keyed "a": reapplying the identical
    configuration re-creates creator "x" (a creator-added log event, shown
    below), which the claim forbids for a second application of the same
    configuration. -/
theorem claim_C6_counterexample :
    casefold "A" = casefold "a"
    ∧ updateKind (NEvent.creator "a" (WEvent.added "x")) = false
    ∧ NEvent.creator "a" (WEvent.added "x")
      ∈ (((Notifier.mk 0 3600 "" "" [] []).apply_config
          (NotifierConfig.mk "ua" "e"
            [("A", DiscordWebhookConfig.mk "u"
                [("x", PicartoCreatorConfig.mk [])]),
             ("a", DiscordWebhookConfig.mk "u"
                [("y", PicartoCreatorConfig.mk [])])]) 0).1.apply_config
          (NotifierConfig.mk "ua" "e"
            [("A", DiscordWebhookConfig.mk "u"
                [("x", PicartoCreatorConfig.mk [])]),
             ("a", DiscordWebhookConfig.mk "u"
                [("y", PicartoCreatorConfig.mk [])])]) 1).2 := by
  refine ⟨by decide, rfl, by decide⟩

/-- C6 (amended): provided no two webhook names of the configuration share
    a case-folded key, reapplying a configuration equal to the applied one
    up to case-folding of webhook and creator names (in particular the
    same configuration) emits only update events — no webhook or creator
    is created or removed — keeps exactly the same webhook keys, and
    preserves every creator key set and every last-notified timestamp of
    every webhook. -/
theorem claim_C6_reconfig_idempotent (n : Notifier) (cfg cfg2 : NotifierConfig)
    (now1 now2 : Int)
    (hequiv : notifierConfigEquiv cfg cfg2 = true)
    (hnd : (cfgKeys cfg.webhooks).Nodup) :
    (∀ e ∈ ((n.apply_config cfg now1).1.apply_config cfg2 now2).2,
        updateKind e = true)
    ∧ (∀ wk, (dictGet ((n.apply_config cfg now1).1.apply_config cfg2
          now2).1.webhooks wk).isSome
        = (dictGet (n.apply_config cfg now1).1.webhooks wk).isSome)
    ∧ (∀ wk w2 w1,
        dictGet ((n.apply_config cfg now1).1.apply_config cfg2
          now2).1.webhooks wk = some w2 →
        dictGet (n.apply_config cfg now1).1.webhooks wk = some w1 →
        (∀ ck, dictGet w2.last_notified ck = dictGet w1.last_notified ck)
        ∧ (∀ ck, (dictGet w2.creators ck).isSome
            = (dictGet w1.creators ck).isSome)) :=
  notifier_reapply_equiv n cfg cfg2 now1 now2 hequiv hnd

/-- C6 witness: `claim_C6_reconfig_idempotent` applied to an initially
    empty notifier and a one-webhook configuration reapplied with
    case-variant names ("W"/"Foo" versus "w"/"FOO"). -/
theorem claim_C6_reconfig_idempotent_witness :
    notifierConfigEquiv
      (NotifierConfig.mk "ua" "e" [("W", DiscordWebhookConfig.mk "u"
        [("Foo", PicartoCreatorConfig.mk [])])])
      (NotifierConfig.mk "ua" "e" [("w", DiscordWebhookConfig.mk "u"
        [("FOO", PicartoCreatorConfig.mk [])])]) = true
    ∧ (cfgKeys (NotifierConfig.mk "ua" "e" [("W", DiscordWebhookConfig.mk "u"
        [("Foo", PicartoCreatorConfig.mk [])])]).webhooks).Nodup
    ∧ ((∀ e ∈ (((Notifier.mk 0 3600 "" "" [] []).apply_config
          (NotifierConfig.mk "ua" "e" [("W", DiscordWebhookConfig.mk "u"
            [("Foo", PicartoCreatorConfig.mk [])])]) 0).1.apply_config
          (NotifierConfig.mk "ua" "e" [("w", DiscordWebhookConfig.mk "u"
            [("FOO", PicartoCreatorConfig.mk [])])]) 1).2,
        updateKind e = true)
      ∧ (∀ wk, (dictGet ((((Notifier.mk 0 3600 "" "" [] []).apply_config
          (NotifierConfig.mk "ua" "e" [("W", DiscordWebhookConfig.mk "u"
            [("Foo", PicartoCreatorConfig.mk [])])]) 0).1.apply_config
          (NotifierConfig.mk "ua" "e" [("w", DiscordWebhookConfig.mk "u"
            [("FOO", PicartoCreatorConfig.mk [])])]) 1)).1.webhooks wk).isSome
        = (dictGet (((Notifier.mk 0 3600 "" "" [] []).apply_config
          (NotifierConfig.mk "ua" "e" [("W", DiscordWebhookConfig.mk "u"
            [("Foo", PicartoCreatorConfig.mk [])])]) 0)).1.webhooks wk).isSome)
      ∧ (∀ wk w2 w1,
        dictGet ((((Notifier.mk 0 3600 "" "" [] []).apply_config
          (NotifierConfig.mk "ua" "e" [("W", DiscordWebhookConfig.mk "u"
            [("Foo", PicartoCreatorConfig.mk [])])]) 0).1.apply_config
          (NotifierConfig.mk "ua" "e" [("w", DiscordWebhookConfig.mk "u"
            [("FOO", PicartoCreatorConfig.mk [])])]) 1)).1.webhooks wk
          = some w2 →
        dictGet (((Notifier.mk 0 3600 "" "" [] []).apply_config
          (NotifierConfig.mk "ua" "e" [("W", DiscordWebhookConfig.mk "u"
            [("Foo", PicartoCreatorConfig.mk [])])]) 0)).1.webhooks wk
          = some w1 →
        (∀ ck, dictGet w2.last_notified ck = dictGet w1.last_notified ck)
        ∧ (∀ ck, (dictGet w2.creators ck).isSome
            = (dictGet w1.creators ck).isSome))) :=
  ⟨by decide, by decide,
   claim_C6_reconfig_idempotent (Notifier.mk 0 3600 "" "" [] [])
     (NotifierConfig.mk "ua" "e" [("W", DiscordWebhookConfig.mk "u"
       [("Foo", PicartoCreatorConfig.mk [])])])
     (NotifierConfig.mk "ua" "e" [("w", DiscordWebhookConfig.mk "u"
       [("FOO", PicartoCreatorConfig.mk [])])]) 0 1 (by decide) (by decide)⟩

/-- C7: in one notify cycle over an online map (distinct keys, as Python
    dict keys are), a successful delivery stamps `now` as the key's
    last-notified instant; a failed delivery leaves the key's entry exactly
    as it was; the set of attempted keys is exactly the creators due by the
    cycle's guards, independent of any delivery outcome (so a failure never
    stops processing of the remaining creators); the cycle returns false
    iff at least one attempt failed; and nothing else is rolled back:
    untouched keys keep their timestamps and the webhook's name and URL
    are unchanged. -/
theorem claim_C7_delivery_outcomes (w : DiscordWebhook)
    (online : List (String × LiveData)) (now : Int) (post : String → Bool)
    (hnd : (online.map Prod.fst).Nodup) :
    ((w.notify online now post).success = false
      ↔ ∃ k ∈ (w.notify online now post).attempts, post k = false)
    ∧ (∀ k ∈ (w.notify online now post).attempts, post k = true →
        dictGet (w.notify online now post).webhook.last_notified k = some now)
    ∧ (∀ k, post k = false →
        dictGet (w.notify online now post).webhook.last_notified k
          = dictGet w.last_notified k)
    ∧ (w.notify online now post).attempts
        = (online.filter (fun p => notifyDue w p.1 now)).map Prod.fst
    ∧ (∀ k, k ∉ (w.notify online now post).attempts →
        dictGet (w.notify online now post).webhook.last_notified k
          = dictGet w.last_notified k)
    ∧ (w.notify online now post).webhook.url = w.url
    ∧ (w.notify online now post).webhook.name = w.name := by
  obtain ⟨ha, hs, hl, hcr, hu, hn⟩ :=
    notify_foldl_spec online now post ⟨w, true, []⟩ hnd
  dsimp only at ha hs hl hcr hu hn
  rw [Bool.true_and] at hs
  rw [show ([] : List String) ++ (online.filter
      (fun p => notifyDue w p.1 now)).map Prod.fst
    = (online.filter (fun p => notifyDue w p.1 now)).map Prod.fst
    from List.nil_append _] at ha
  rw [DiscordWebhook.notify]
  refine ⟨?_, ?_, ?_, ?_, ?_, ?_, ?_⟩
  · rw [hs, ha, Bool.eq_false_iff, Ne, List.all_eq_true]
    constructor
    · intro hnotall
      push_neg at hnotall
      obtain ⟨k, hk, hpk⟩ := hnotall
      exact ⟨k, hk, Bool.eq_false_iff.mpr hpk⟩
    · rintro ⟨k, hk, hpk⟩ hall
      have := hall k hk
      rw [hpk] at this
      exact Bool.noConfusion this
  · intro k hk hpk
    rw [hl k]
    have hmem : k ∈ (online.filter
        (fun p => notifyDue w p.1 now)).map Prod.fst := by
      rw [← ha]
      exact hk
    rw [if_pos ⟨hmem, hpk⟩]
  · intro k hpk
    rw [hl k]
    have hcond : ¬ (k ∈ (online.filter
        (fun p => notifyDue w p.1 now)).map Prod.fst ∧ post k = true) := by
      rintro ⟨_, hp2⟩
      rw [hpk] at hp2
      exact Bool.noConfusion hp2
    rw [if_neg hcond]
  · exact ha
  · intro k hk
    rw [hl k]
    have hcond : ¬ (k ∈ (online.filter
        (fun p => notifyDue w p.1 now)).map Prod.fst ∧ post k = true) := by
      rintro ⟨hm, _⟩
      exact hk (by rw [ha]; exact hm)
    rw [if_neg hcond]
  · exact hu
  · exact hn

/-- C7 witness: `claim_C7_delivery_outcomes` on a webhook tracking "a" and
    "b" with both online, where delivery succeeds for "a" and fails for
    "b". -/
theorem claim_C7_delivery_outcomes_witness :
    ((([("a", LiveData.mk none), ("b", LiveData.mk none)]
        : List (String × LiveData)).map Prod.fst).Nodup)
    ∧ (((DiscordWebhook.mk "W" "u"
        [("a", PicartoCreator.init "A" ⟨[]⟩),
         ("b", PicartoCreator.init "B" ⟨[]⟩)] []).notify
        [("a", LiveData.mk none), ("b", LiveData.mk none)] 60
        (fun k => decide (k = "a"))).success = false
      ↔ ∃ k ∈ ((DiscordWebhook.mk "W" "u"
        [("a", PicartoCreator.init "A" ⟨[]⟩),
         ("b", PicartoCreator.init "B" ⟨[]⟩)] []).notify
        [("a", LiveData.mk none), ("b", LiveData.mk none)] 60
        (fun k => decide (k = "a"))).attempts,
        (fun k => decide (k = "a")) k = false) :=
  ⟨by decide,
   (claim_C7_delivery_outcomes (DiscordWebhook.mk "W" "u"
      [("a", PicartoCreator.init "A" ⟨[]⟩),
       ("b", PicartoCreator.init "B" ⟨[]⟩)] [])
      [("a", LiveData.mk none), ("b", LiveData.mk none)] 60
      (fun k => decide (k = "a")) (by decide)).1⟩

end PicartoNotif

